import Mathlib

/-!
Shallow embedding of the `quantreg` Go package (rq.go, nlrq.go and the
multi-quantile/diagnostics file) for verifying its specification.

Conventions of the embedding:
* `float64` values are modelled by exact rationals (`ℚ`).
* A Go function returning `(T, error)` is modelled as `Except QRError T`.
* A possible runtime panic (out-of-range slice access, nil-pointer
  dereference) is modelled by wrapping results in `Option`: `none` is a panic.
  Every slice index access of the Go code is rendered with `List.get?`.
* Iteration loops with a fixed cap are modelled by structural recursion on an
  explicit fuel argument equal to the cap.
-/

namespace Quantreg

/-- Error kinds of the package, one per distinct error site of the Go code
(`empty input data`, `x and y dimensions do not match`, `tau must be between
0 and 1`, `no quantile levels specified`); the multi-fit functions wrap a
per-tau failure together with the offending tau (`failed to fit model for
tau=...`). -/
inductive QRError where
  | EmptyInput : QRError
  | DimensionMismatch : QRError
  | InvalidTau : QRError
  | EmptyTauSet : QRError
  | Wrapped : ℚ → QRError → QRError
deriving DecidableEq

/-- RQFit represents a fitted quantile regression model (rq.go). -/
structure RQFit where
  Coefficients : List ℚ
  Residuals : List ℚ
  Fitted : List ℚ
  Tau : ℚ
  N : ℕ
  P : ℕ
  Method : String
  Formula : String
deriving DecidableEq

/-- Modelled from the spec: the sparse-matrix collaborator (package `sparsem`)
is external to this repository; the spec scopes it out as "a sparse-matrix
representation and its dense-conversion utility (consumed by the linear solver
as a read-only numeric array source; the core never mutates it)". It is
modelled as the stored rows together with the column count, which for a matrix
built from `x` is the width of the first row (the same `p` the caller
computes as `len(x[0])`). -/
structure CSRMatrix where
  rows : List (List ℚ)
  Cols : ℕ

/-- Modelled from the spec: constructing the sparse matrix from dense rows. -/
def NewCSRMatrix (x : List (List ℚ)) : CSRMatrix :=
  { rows := x, Cols := (x.headD []).length }

/-- Modelled from the spec: the dense-conversion utility returns the rows. -/
def CSRMatrix.ToDense (m : CSRMatrix) : List (List ℚ) :=
  m.rows

/-- Iteration cap shared by both solvers (`maxIter := 1000`). -/
def maxIter : ℕ := 1000

/-- Convergence threshold shared by both solvers (`tolerance := 1e-8`). -/
def tolerance : ℚ := 1 / 100000000

/-- Step size shared by both solvers (`learningRate := 0.01`). -/
def learningRate : ℚ := 1 / 100

/-- The Go loop `for j := 0; j < p; j++ { pred += row[j] * sol[j] }`, each
index access rendered with `List.get?` so that `none` models an out-of-range
access. -/
def dotPrefix (row sol : List ℚ) (p : ℕ) : Option ℚ :=
  (List.range p).foldlM
    (fun pred j => do
      let a ← row.get? j
      let b ← sol.get? j
      pure (pred + a * b))
    0

/-- Residual computation of one linear-solver iteration (rq.go lines 90-98):
`residuals[i] = y[i] - pred` with `pred` the dot product of dense row `i`
of the design matrix with the current solution. -/
def brResiduals (y : List ℚ) (xd : List (List ℚ)) (p : ℕ) (sol : List ℚ) :
    Option (List ℚ) :=
  (List.range y.length).mapM (fun i => do
    let row ← xd.get? i
    let pred ← dotPrefix row sol p
    let yi ← y.get? i
    pure (yi - pred))

/-- Gradient entry `i` of one linear-solver iteration (rq.go lines 103-114):
`grad += x[j][i] * (tau - 1)` when `residuals[j] > 0`, otherwise
`grad += x[j][i] * tau`. -/
def brGradAt (xd : List (List ℚ)) (residuals : List ℚ) (tau : ℚ) (n i : ℕ) :
    Option ℚ :=
  (List.range n).foldlM
    (fun grad j => do
      let r ← residuals.get? j
      let row ← xd.get? j
      let xji ← row.get? i
      pure (if 0 < r then grad + xji * (tau - 1) else grad + xji * tau))
    0

/-- The iteration loop of `solveBarrodaleRoberts` with explicit fuel. Each
iteration recomputes residuals and gradients, tracks the largest absolute
gradient component, breaks when it falls below `tolerance`, and otherwise
steps every coordinate by `learningRate` opposite the gradient. -/
def brLoop (tau : ℚ) (y : List ℚ) (xd : List (List ℚ)) (p : ℕ) :
    ℕ → List ℚ → Option (List ℚ)
  | 0, solution => some solution
  | fuel + 1, solution => do
      let residuals ← brResiduals y xd p solution
      let gradients ← (List.range p).mapM (fun i => brGradAt xd residuals tau y.length i)
      let maxGrad := gradients.foldl (fun m g => max m |g|) 0
      if maxGrad < tolerance then
        pure solution
      else
        brLoop tau y xd p fuel
          (List.zipWith (fun s g => s - learningRate * g) solution gradients)

/-- solveBarrodaleRoberts (rq.go lines 77-127). The Go function always returns
a nil error; the only failure mode modelled is a panic (`none`). The solution
starts as the zero vector of length `p`. -/
def solveBarrodaleRoberts (tau : ℚ) (y : List ℚ) (x : CSRMatrix) : Option (List ℚ) :=
  brLoop tau y x.ToDense x.Cols maxIter (List.replicate x.Cols 0)

/-- RQ fits a linear quantile regression model (rq.go lines 25-74): validate
emptiness, row count and tau; solve; then compute fitted values and residuals
(`Fitted[i] = Σ x[i][j]*coef[j]`, `Residuals[i] = y[i] - Fitted[i]`) in one
pass over the observations. -/
def RQ (y : List ℚ) (x : List (List ℚ)) (tau : ℚ) : Option (Except QRError RQFit) :=
  if y.length = 0 ∨ x.length = 0 then some (Except.error QRError.EmptyInput)
  else
    let n := y.length
    let p := (x.headD []).length
    if n ≠ x.length then some (Except.error QRError.DimensionMismatch)
    else if tau ≤ 0 ∨ 1 ≤ tau then some (Except.error QRError.InvalidTau)
    else do
      let xMat := NewCSRMatrix x
      let coef ← solveBarrodaleRoberts tau y xMat
      let fr ← (List.range n).mapM (fun i => do
        let row ← x.get? i
        let fitted ← dotPrefix row coef p
        let yi ← y.get? i
        pure (fitted, yi - fitted))
      pure (Except.ok
        { Coefficients := coef
          Residuals := fr.map Prod.snd
          Fitted := fr.map Prod.fst
          Tau := tau
          N := n
          P := p
          Method := "br"
          Formula := "" })

/-- Predict for the linear model (rq.go lines 130-151). Only the width of the
first new row is compared against `P`; the prediction loop then reads entries
`newX[i][j]` and `Coefficients[j]` for every `j < P`. -/
def RQFit.Predict (fit : RQFit) (newX : List (List ℚ)) :
    Option (Except QRError (List ℚ)) :=
  if newX.length = 0 then some (Except.error QRError.EmptyInput)
  else if (newX.headD []).length ≠ fit.P then some (Except.error QRError.DimensionMismatch)
  else do
    let preds ← (List.range newX.length).mapM (fun i => do
      let row ← newX.get? i
      dotPrefix row fit.Coefficients fit.P)
    pure (Except.ok preds)

/-- NonLinearModel (nlrq.go lines 10-17): a value function and its gradient
with respect to the parameter vector. -/
structure NonLinearModel where
  F : List ℚ → List ℚ → ℚ
  Gradient : List ℚ → List ℚ → List ℚ

/-- NLRQFit represents a fitted non-linear quantile regression model
(nlrq.go lines 20-29). -/
structure NLRQFit where
  Coefficients : List ℚ
  Residuals : List ℚ
  Fitted : List ℚ
  Tau : ℚ
  N : ℕ
  P : ℕ
  Model : NonLinearModel
  Formula : String

/-- Objective-gradient entry `j` of one non-linear-solver iteration
(nlrq.go lines 104-114): `objGrad[j] += gradients[i][j] * (tau - 1)` when
`residuals[i] > 0`, otherwise `objGrad[j] += gradients[i][j] * tau`. -/
def ipGradAt (gradients : List (List ℚ)) (residuals : List ℚ) (tau : ℚ) (n j : ℕ) :
    Option ℚ :=
  (List.range n).foldlM
    (fun acc i => do
      let r ← residuals.get? i
      let gi ← gradients.get? i
      let gij ← gi.get? j
      pure (if 0 < r then acc + gij * (tau - 1) else acc + gij * tau))
    0

/-- The iteration loop of `solveInteriorPoint` with explicit fuel, carrying the
barrier parameter `t` (the growth factor `mu` is constant). Each iteration
evaluates the model and its gradient at every observation, forms the objective
gradient, breaks when its largest absolute component falls below `tolerance`,
and otherwise steps the parameters and updates `t := t * mu`. -/
def ipLoop (tau mu : ℚ) (y : List ℚ) (x : List (List ℚ)) (model : NonLinearModel)
    (p : ℕ) : ℕ → List ℚ → ℚ → Option (List ℚ)
  | 0, beta, _t => some beta
  | fuel + 1, beta, t => do
      let rg ← (List.range y.length).mapM (fun i => do
        let xi ← x.get? i
        let yi ← y.get? i
        pure (yi - model.F beta xi, model.Gradient beta xi))
      let residuals := rg.map Prod.fst
      let gradients := rg.map Prod.snd
      let objGrad ← (List.range p).mapM (fun j => ipGradAt gradients residuals tau y.length j)
      let maxGrad := objGrad.foldl (fun m g => max m |g|) 0
      if maxGrad < tolerance then
        pure beta
      else
        ipLoop tau mu y x model p fuel
          (List.zipWith (fun b g => b - learningRate * g) beta objGrad) (t * mu)

/-- solveInteriorPoint (nlrq.go lines 78-136): the loop above started at
`beta0` with barrier parameter `t = 1` and growth factor `mu = 10`. -/
def solveInteriorPoint (tau : ℚ) (y : List ℚ) (x : List (List ℚ))
    (model : NonLinearModel) (beta0 : List ℚ) : Option (List ℚ) :=
  ipLoop tau 10 y x model beta0.length maxIter beta0 1

/-- Modelled from the spec, for the refinement comparison: "the same iteration
with the two barrier variables removed" — the loop of `ipLoop` with the
barrier coefficient `t` and growth factor `mu` deleted, all else identical. -/
def ipLoopNoBarrier (tau : ℚ) (y : List ℚ) (x : List (List ℚ)) (model : NonLinearModel)
    (p : ℕ) : ℕ → List ℚ → Option (List ℚ)
  | 0, beta => some beta
  | fuel + 1, beta => do
      let rg ← (List.range y.length).mapM (fun i => do
        let xi ← x.get? i
        let yi ← y.get? i
        pure (yi - model.F beta xi, model.Gradient beta xi))
      let residuals := rg.map Prod.fst
      let gradients := rg.map Prod.snd
      let objGrad ← (List.range p).mapM (fun j => ipGradAt gradients residuals tau y.length j)
      let maxGrad := objGrad.foldl (fun m g => max m |g|) 0
      if maxGrad < tolerance then
        pure beta
      else
        ipLoopNoBarrier tau y x model p fuel
          (List.zipWith (fun b g => b - learningRate * g) beta objGrad)

/-- The barrier-free variant of `solveInteriorPoint` used by the refinement
claim. -/
def solveInteriorPointNoBarrier (tau : ℚ) (y : List ℚ) (x : List (List ℚ))
    (model : NonLinearModel) (beta0 : List ℚ) : Option (List ℚ) :=
  ipLoopNoBarrier tau y x model beta0.length maxIter beta0

/-- NLRQ fits a non-linear quantile regression model (nlrq.go lines 32-75). -/
def NLRQ (y : List ℚ) (x : List (List ℚ)) (model : NonLinearModel) (beta0 : List ℚ)
    (tau : ℚ) : Option (Except QRError NLRQFit) :=
  if y.length = 0 ∨ x.length = 0 then some (Except.error QRError.EmptyInput)
  else
    let n := y.length
    let p := beta0.length
    if n ≠ x.length then some (Except.error QRError.DimensionMismatch)
    else if tau ≤ 0 ∨ 1 ≤ tau then some (Except.error QRError.InvalidTau)
    else do
      let coef ← solveInteriorPoint tau y x model beta0
      let fr ← (List.range n).mapM (fun i => do
        let xi ← x.get? i
        let yi ← y.get? i
        let fitted := model.F coef xi
        pure (fitted, yi - fitted))
      pure (Except.ok
        { Coefficients := coef
          Residuals := fr.map Prod.snd
          Fitted := fr.map Prod.fst
          Tau := tau
          N := n
          P := p
          Model := model
          Formula := "" })

/-- Predict for the non-linear model (nlrq.go lines 139-152): only emptiness is
checked; every row is passed to the model function as-is. -/
def NLRQFit.Predict (fit : NLRQFit) (newX : List (List ℚ)) :
    Option (Except QRError (List ℚ)) :=
  if newX.length = 0 then some (Except.error QRError.EmptyInput)
  else do
    let preds ← (List.range newX.length).mapM (fun i => do
      let xi ← newX.get? i
      pure (fit.Model.F fit.Coefficients xi))
    pure (Except.ok preds)

/-- MultiRQFit represents multiple quantile regression fits. The Go map from
tau to fit is modelled as a function `ℚ → Option RQFit` (Go map lookup of a
missing key yields the nil pointer, modelled by `none`). -/
structure MultiRQFit where
  Fits : ℚ → Option RQFit
  Taus : List ℚ
  N : ℕ
  P : ℕ
  Method : String
  Formula : String

/-- MultiNLRQFit represents multiple non-linear quantile regression fits. -/
structure MultiNLRQFit where
  Fits : ℚ → Option NLRQFit
  Taus : List ℚ
  N : ℕ
  P : ℕ
  Model : NonLinearModel
  Formula : String

/-- Model of `sort.Float64s` applied to a copy of the input: the ascending
sorted permutation. A sorted permutation of a list of rationals is unique as a
list, so the choice of sorting algorithm is immaterial. -/
def sortFloat64s (l : List ℚ) : List ℚ :=
  List.insertionSort (· ≤ ·) l

/-- The fitting loop of RQProcess (part_000 lines 52-62): fit each tau in
order, aborting with a wrapped error on the first failure, storing each fit in
the map and remembering the first fit. -/
def rqFitLoop (y : List ℚ) (x : List (List ℚ)) :
    List ℚ → (ℚ → Option RQFit) → Option RQFit →
    Option (Except QRError ((ℚ → Option RQFit) × Option RQFit))
  | [], fits, firstFit => some (Except.ok (fits, firstFit))
  | tau :: rest, fits, firstFit => do
      let r ← RQ y x tau
      match r with
      | Except.error e => pure (Except.error (QRError.Wrapped tau e))
      | Except.ok fit =>
          rqFitLoop y x rest (fun t => if t = tau then some fit else fits t)
            (match firstFit with
             | none => some fit
             | some f => some f)

/-- RQProcess fits multiple quantile regression models (part_000 lines 32-72):
reject an empty tau collection, sort a copy of the taus, validate each tau,
fit them in ascending order, and assemble the aggregate with N and P taken
from the first fit. -/
def RQProcess (y : List ℚ) (x : List (List ℚ)) (taus : List ℚ) :
    Option (Except QRError MultiRQFit) :=
  if taus.length = 0 then some (Except.error QRError.EmptyTauSet)
  else
    let sortedTaus := sortFloat64s taus
    if sortedTaus.any (fun tau => decide (tau ≤ 0) || decide (1 ≤ tau)) then
      some (Except.error QRError.InvalidTau)
    else do
      let r ← rqFitLoop y x sortedTaus (fun _ => none) none
      match r with
      | Except.error e => pure (Except.error e)
      | Except.ok (fits, firstFit) =>
          match firstFit with
          | none => none
          | some ff =>
              pure (Except.ok
                { Fits := fits
                  Taus := sortedTaus
                  N := ff.N
                  P := ff.P
                  Method := "br"
                  Formula := ff.Formula })

/-- The fitting loop of NLRQProcess (part_000 lines 95-105). -/
def nlFitLoop (y : List ℚ) (x : List (List ℚ)) (model : NonLinearModel)
    (beta0 : List ℚ) :
    List ℚ → (ℚ → Option NLRQFit) → Option NLRQFit →
    Option (Except QRError ((ℚ → Option NLRQFit) × Option NLRQFit))
  | [], fits, firstFit => some (Except.ok (fits, firstFit))
  | tau :: rest, fits, firstFit => do
      let r ← NLRQ y x model beta0 tau
      match r with
      | Except.error e => pure (Except.error (QRError.Wrapped tau e))
      | Except.ok fit =>
          nlFitLoop y x model beta0 rest (fun t => if t = tau then some fit else fits t)
            (match firstFit with
             | none => some fit
             | some f => some f)

/-- NLRQProcess fits multiple non-linear quantile regression models
(part_000 lines 75-115). -/
def NLRQProcess (y : List ℚ) (x : List (List ℚ)) (model : NonLinearModel)
    (beta0 : List ℚ) (taus : List ℚ) : Option (Except QRError MultiNLRQFit) :=
  if taus.length = 0 then some (Except.error QRError.EmptyTauSet)
  else
    let sortedTaus := sortFloat64s taus
    if sortedTaus.any (fun tau => decide (tau ≤ 0) || decide (1 ≤ tau)) then
      some (Except.error QRError.InvalidTau)
    else do
      let r ← nlFitLoop y x model beta0 sortedTaus (fun _ => none) none
      match r with
      | Except.error e => pure (Except.error e)
      | Except.ok (fits, firstFit) =>
          match firstFit with
          | none => none
          | some ff =>
              pure (Except.ok
                { Fits := fits
                  Taus := sortedTaus
                  N := ff.N
                  P := ff.P
                  Model := model
                  Formula := ff.Formula })

/-- Stats holds basic statistical measures (part_000 lines 194-201). The Go
struct stores `StdDev = math.Sqrt(variance)`; a square root is not exactly
representable in rational arithmetic, so the model records the radicand
`Variance` instead. Go's `math.Sqrt v` is NaN exactly when `v < 0`. -/
structure Stats where
  Min : ℚ
  Max : ℚ
  Median : ℚ
  Mean : ℚ
  Variance : ℚ
deriving DecidableEq

/-- computeStats (part_000 lines 243-268): min, max and median from a sorted
copy (median at index `n / 2`), mean and variance from one accumulation pass
with `variance = sumSq/n - mean*mean` (no clamping of the variance). -/
def computeStats (data : List ℚ) : Stats :=
  if data.length = 0 then { Min := 0, Max := 0, Median := 0, Mean := 0, Variance := 0 }
  else
    let n := data.length
    let sorted := sortFloat64s data
    let s := data.foldl (fun acc v => (acc.1 + v, acc.2 + v * v)) ((0 : ℚ), (0 : ℚ))
    let mean := s.1 / (n : ℚ)
    let variance := s.2 / (n : ℚ) - mean * mean
    { Min := sorted.getD 0 0
      Max := sorted.getD (n - 1) 0
      Median := sorted.getD (n / 2) 0
      Mean := mean
      Variance := variance }

/-- countCrossings (part_000 lines 271-284): zero for length-mismatched
inputs, otherwise the number of indices `i` from 1 to `len - 1` at which the
ordering of the two fitted sequences flips between `i - 1` and `i`. -/
def countCrossings (fit1 fit2 : List ℚ) : ℤ :=
  if fit1.length ≠ fit2.length then 0
  else
    (List.range' 1 (fit1.length - 1)).foldl
      (fun crossings i =>
        if (fit1.getD (i - 1) 0 ≤ fit2.getD (i - 1) 0 ∧ fit2.getD i 0 < fit1.getD i 0) ∨
            (fit2.getD (i - 1) 0 ≤ fit1.getD (i - 1) 0 ∧ fit1.getD i 0 < fit2.getD i 0)
        then crossings + 1
        else crossings)
      0

/-- median (part_000 lines 303-311): 0 for empty data, otherwise the element
at index `len / 2` of a sorted copy. -/
def median (data : List ℚ) : ℚ :=
  if data.length = 0 then 0
  else (sortFloat64s data).getD (data.length / 2) 0

/-- computePseudoRSquared (part_000 lines 287-300): with `m` the median of the
fit's own residuals, accumulate `Σ|residual|` and `Σ|fitted - m|` over the
observations (reading `Fitted[i]` by index, a possible panic), and return 0
when the denominator is zero, else `1 - Σ|residual| / Σ|fitted - m|`. -/
def computePseudoRSquared (fit : RQFit) : Option ℚ := do
  let m := median fit.Residuals
  let s ← fit.Residuals.enum.foldlM
    (fun (acc : ℚ × ℚ) (p : ℕ × ℚ) => do
      let f ← fit.Fitted.get? p.1
      pure (acc.1 + |p.2|, acc.2 + |f - m|))
    ((0 : ℚ), (0 : ℚ))
  if s.2 = 0 then pure 0 else pure (1 - s.1 / s.2)

/-- Pointwise update of the crossing matrix, modelled as a total function;
`matUpd M a b v` is `M` with cell `(a, b)` set to `v`. -/
def matUpd (M : ℕ → ℕ → ℤ) (a b : ℕ) (v : ℤ) : ℕ → ℕ → ℤ :=
  fun i j => if i = a ∧ j = b then v else M i j

/-- The inner loop of ComputeDiagnostics (part_000 lines 222-230): for each
later position `j` (skipping `j ≤ i`), look up the second fit, count the
crossings against `fit1`, and write the count into cells `(i, j)` and
`(j, i)`. -/
def crossLoop (m : MultiRQFit) (fit1 : RQFit) (i : ℕ) :
    List (ℕ × ℚ) → (ℕ → ℕ → ℤ) → Option (ℕ → ℕ → ℤ)
  | [], M => some M
  | (j, tau2) :: rest, M =>
      if j ≤ i then crossLoop m fit1 i rest M
      else do
        let fit2 ← m.Fits tau2
        let c := countCrossings fit1.Fitted fit2.Fitted
        crossLoop m fit1 i rest (matUpd (matUpd M i j c) j i c)

/-- The outer loop of ComputeDiagnostics (part_000 lines 216-231): for each
position `i` and tau, look up the fit, record its residual statistics, and run
the crossing loop over all positions. -/
def diagLoop (m : MultiRQFit) :
    List (ℕ × ℚ) → (ℚ → Option Stats) → (ℕ → ℕ → ℤ) →
    Option ((ℚ → Option Stats) × (ℕ → ℕ → ℤ))
  | [], rs, M => some (rs, M)
  | (i, tau1) :: rest, rs, M => do
      let fit1 ← m.Fits tau1
      let stats := computeStats fit1.Residuals
      let M' ← crossLoop m fit1 i m.Taus.enum M
      diagLoop m rest (fun t => if t = tau1 then some stats else rs t) M'

/-- Diagnostics (part_000 lines 188-192). The residual-statistics map is a
function from tau, like the fits map; the crossing matrix is the final
`len(Taus) × len(Taus)` array of cells. -/
structure Diagnostics where
  PseudoRSquared : ℚ
  ResidualStats : ℚ → Option Stats
  CrossingMatrix : List (List ℤ)

/-- ComputeDiagnostics (part_000 lines 204-240): run the statistics/crossing
loops over the enumerated taus, then compute the pseudo R-squared from the
tau = 0.5 fit when it is present in the map (the `PseudoRSquared` field keeps
its zero value when it is absent). The matrix, updated in place in Go, is
rendered row by row from the final cell function. -/
def MultiRQFit.ComputeDiagnostics (m : MultiRQFit) : Option Diagnostics := do
  let n := m.Taus.length
  let (rs, M) ← diagLoop m m.Taus.enum (fun _ => none) (fun _ _ => 0)
  let pseudo ← match m.Fits (1 / 2) with
    | none => some (0 : ℚ)
    | some medianFit => computePseudoRSquared medianFit
  pure { PseudoRSquared := pseudo
         ResidualStats := rs
         CrossingMatrix := (List.range n).map (fun i => (List.range n).map (fun j => M i j)) }

/-! ### General helper lemmas about the `Option`-monadic loop combinators -/

theorem foldlM_pure_eq {α β : Type} {g : β → α → Option β} {h : β → α → β} :
    ∀ (l : List α), (∀ b a, a ∈ l → g b a = some (h b a)) →
    ∀ b0 : β, l.foldlM g b0 = some (l.foldl h b0)
  | [], _, b0 => rfl
  | a :: l, H, b0 => by
      rw [List.foldlM_cons, H b0 a (List.mem_cons_self a l)]
      show (l.foldlM g (h b0 a)) = _
      rw [foldlM_pure_eq l (fun b a ha => H b a (List.mem_cons_of_mem _ ha)) (h b0 a)]
      rfl

theorem mapM_pure_eq {α β : Type} {f : α → Option β} {h : α → β} :
    ∀ (l : List α), (∀ a ∈ l, f a = some (h a)) → l.mapM f = some (l.map h)
  | [], _ => rfl
  | a :: l, H => by
      rw [List.mapM_cons, H a (List.mem_cons_self a l),
        mapM_pure_eq l (fun a ha => H a (List.mem_cons_of_mem _ ha))]
      rfl

theorem mapM_some_charac {α β : Type} {f : α → Option β} :
    ∀ (l : List α) (r : List β), l.mapM f = some r →
      r.length = l.length ∧
      ∀ i a, l.get? i = some a → ∃ b, f a = some b ∧ r.get? i = some b
  | [], r, hr => by
      simp only [List.mapM_nil, pure, Option.some_inj] at hr
      subst hr
      exact ⟨rfl, fun i a ha => by simp at ha⟩
  | a :: l, r, hr => by
      rw [List.mapM_cons] at hr
      cases hfa : f a with
      | none => rw [hfa] at hr; simp at hr
      | some b =>
          rw [hfa] at hr
          cases hml : l.mapM f with
          | none =>
              rw [hml] at hr; simp at hr
          | some rl =>
              rw [hml] at hr
              simp only [Option.pure_def, Option.bind_eq_bind, Option.some_bind,
                Option.some_inj] at hr
              subst hr
              obtain ⟨hlen, hget⟩ := mapM_some_charac l rl hml
              refine ⟨by simp [hlen], ?_⟩
              intro i c hc
              cases i with
              | zero =>
                  simp only [List.get?] at hc ⊢
                  exact ⟨b, by rw [← Option.some_inj.mp hc]; exact hfa, rfl⟩
              | succ i =>
                  simp only [List.get?] at hc ⊢
                  exact hget i c hc

theorem foldl_add_eq_sum {α : Type} (g : α → ℚ) :
    ∀ (l : List α) (c : ℚ), l.foldl (fun acc a => acc + g a) c = c + (l.map g).sum
  | [], c => by simp
  | a :: l, c => by
      simp only [List.foldl_cons, List.map_cons, List.sum_cons]
      rw [foldl_add_eq_sum g l (c + g a)]
      ring

theorem get?_eq_getD_of_lt {α : Type} {l : List α} {i : ℕ} (h : i < l.length) (d : α) :
    l.get? i = some (l.getD i d) := by
  rw [List.getD_eq_get?]
  cases hg : l.get? i with
  | none => exact absurd (List.get?_eq_none.mp hg) (Nat.not_le.mpr h)
  | some b => rfl

/-! ### C1: both solvers share the one-sided subgradient convention -/

/-- The one-sided subgradient factor of the check loss as the spec states it
(§4.1): `tau - 1` for a strictly positive residual, `tau` otherwise
(residual zero included). -/
def checkSubgrad (tau r : ℚ) : ℚ :=
  if 0 < r then tau - 1 else tau

theorem brGradAt_eq_subgradSum (D : List (List ℚ)) (res : List ℚ) (tau : ℚ) (n i : ℕ)
    (hres : n ≤ res.length) (hD : n ≤ D.length) (hrow : ∀ row ∈ D, i < row.length) :
    brGradAt D res tau n i =
      some (((List.range n).map
        (fun j => (D.getD j []).getD i 0 * checkSubgrad tau (res.getD j 0))).sum) := by
  rw [brGradAt, foldlM_pure_eq (List.range n)
    (h := fun grad j => grad + (D.getD j []).getD i 0 * checkSubgrad tau (res.getD j 0))]
  · rw [foldl_add_eq_sum, zero_add]
  · intro b j hj
    have hjn : j < n := List.mem_range.mp hj
    have h1 : res.get? j = some (res.getD j 0) :=
      get?_eq_getD_of_lt (lt_of_lt_of_le hjn hres) 0
    have h2 : D.get? j = some (D.getD j []) :=
      get?_eq_getD_of_lt (lt_of_lt_of_le hjn hD) []
    have hmem : D.getD j [] ∈ D := by
      have := List.get?_mem h2
      exact this
    have h3 : (D.getD j []).get? i = some ((D.getD j []).getD i 0) :=
      get?_eq_getD_of_lt (hrow _ hmem) 0
    rw [h1, h2]
    simp only [Option.pure_def, Option.bind_eq_bind, Option.some_bind]
    rw [h3]
    simp only [Option.some_bind, checkSubgrad]
    rw [mul_ite, apply_ite (fun z => b + z)]

theorem ipGradAt_eq_subgradSum (D : List (List ℚ)) (res : List ℚ) (tau : ℚ) (n j : ℕ)
    (hres : n ≤ res.length) (hD : n ≤ D.length) (hrow : ∀ gi ∈ D, j < gi.length) :
    ipGradAt D res tau n j =
      some (((List.range n).map
        (fun i => (D.getD i []).getD j 0 * checkSubgrad tau (res.getD i 0))).sum) := by
  rw [ipGradAt, foldlM_pure_eq (List.range n)
    (h := fun acc i => acc + (D.getD i []).getD j 0 * checkSubgrad tau (res.getD i 0))]
  · rw [foldl_add_eq_sum, zero_add]
  · intro b i hi
    have hin : i < n := List.mem_range.mp hi
    have h1 : res.get? i = some (res.getD i 0) :=
      get?_eq_getD_of_lt (lt_of_lt_of_le hin hres) 0
    have h2 : D.get? i = some (D.getD i []) :=
      get?_eq_getD_of_lt (lt_of_lt_of_le hin hD) []
    have hmem : D.getD i [] ∈ D := List.get?_mem h2
    have h3 : (D.getD i []).get? j = some ((D.getD i []).getD j 0) :=
      get?_eq_getD_of_lt (hrow _ hmem) 0
    rw [h1, h2]
    simp only [Option.pure_def, Option.bind_eq_bind, Option.some_bind]
    rw [h3]
    simp only [Option.some_bind, checkSubgrad]
    rw [mul_ite, apply_ite (fun z => b + z)]

/-- C1: both solvers use the same one-sided subgradient of the check loss.
For any derivative matrix `D` (for the linear solver the fixed dense design
matrix, where `D[i][j] = ∂fit_i/∂β_j`; for the non-linear solver the
per-observation model gradients) and any residual vector, the gradient entry
computed by the linear solver (`brGradAt`, the loop body of
`solveBarrodaleRoberts`) and the one computed by the non-linear solver
(`ipGradAt`, the loop body of `solveInteriorPoint`) both equal the sum over
observations of the derivative times `tau - 1` when the residual is strictly
positive and times `tau` otherwise (zero residual included): the identical
convention `checkSubgrad`. -/
theorem C1_subgradient_convention (D : List (List ℚ)) (res : List ℚ) (tau : ℚ) (n k : ℕ)
    (hres : n ≤ res.length) (hD : n ≤ D.length) (hrow : ∀ row ∈ D, k < row.length) :
    brGradAt D res tau n k =
      some (((List.range n).map
        (fun j => (D.getD j []).getD k 0 * checkSubgrad tau (res.getD j 0))).sum) ∧
    ipGradAt D res tau n k =
      some (((List.range n).map
        (fun j => (D.getD j []).getD k 0 * checkSubgrad tau (res.getD j 0))).sum) :=
  ⟨brGradAt_eq_subgradSum D res tau n k hres hD hrow,
   ipGradAt_eq_subgradSum D res tau n k hres hD hrow⟩

/-- C1 witness: the shared convention evaluated at a concrete matrix, residual
vector and tau. -/
theorem C1_subgradient_convention_witness :
    brGradAt [[2]] [1] (3/4) 1 0 =
      some (((List.range 1).map
        (fun j => (([[2]] : List (List ℚ)).getD j []).getD 0 0 *
          checkSubgrad (3/4) (([1] : List ℚ).getD j 0))).sum) ∧
    ipGradAt [[2]] [1] (3/4) 1 0 =
      some (((List.range 1).map
        (fun j => (([[2]] : List (List ℚ)).getD j []).getD 0 0 *
          checkSubgrad (3/4) (([1] : List ℚ).getD j 0))).sum) :=
  C1_subgradient_convention [[2]] [1] (3/4) 1 0 (by norm_num) (by norm_num)
    (by intro row hrow; simp at hrow; simp [hrow])

/-! ### C7: fitted + residual = y, exactly, with matching lengths -/

theorem RQ_fit_identity {y : List ℚ} {x : List (List ℚ)} {tau : ℚ} {fit : RQFit}
    (h : RQ y x tau = some (Except.ok fit)) :
    fit.N = y.length ∧ fit.Fitted.length = fit.N ∧ fit.Residuals.length = fit.N ∧
    ∀ i, i < fit.N → fit.Fitted.getD i 0 + fit.Residuals.getD i 0 = y.getD i 0 := by
  simp only [RQ] at h
  split at h
  · simp at h
  · split at h
    · simp at h
    · split at h
      · simp at h
      · cases hc : solveBarrodaleRoberts tau y (NewCSRMatrix x) with
        | none => rw [hc] at h; simp at h
        | some coef =>
            rw [hc] at h
            simp only [Option.pure_def, Option.bind_eq_bind, Option.some_bind] at h
            cases hm : List.mapM (fun i =>
                (x.get? i).bind fun row =>
                  (dotPrefix row coef (x.headD []).length).bind fun fitted =>
                    (y.get? i).bind fun yi => some (fitted, yi - fitted))
                (List.range y.length) with
            | none => rw [hm] at h; simp at h
            | some fr =>
                rw [hm] at h
                simp only [Option.some_bind, Option.some_inj, Except.ok.injEq] at h
                subst h
                obtain ⟨hlen, hget⟩ := mapM_some_charac _ _ hm
                refine ⟨rfl, ?_, ?_, ?_⟩
                · simp [hlen]
                · simp [hlen]
                · intro i hi
                  obtain ⟨b, hb, hri⟩ := hget i i (List.get?_range hi)
                  cases hrow : x.get? i with
                  | none => rw [hrow] at hb; simp at hb
                  | some row =>
                      rw [hrow] at hb
                      simp only [Option.pure_def, Option.bind_eq_bind, Option.some_bind] at hb
                      cases hd : dotPrefix row coef ((x.headD []).length) with
                      | none => rw [hd] at hb; simp at hb
                      | some f =>
                          rw [hd] at hb
                          simp only [Option.some_bind] at hb
                          cases hy : y.get? i with
                          | none => rw [hy] at hb; simp at hb
                          | some yi =>
                              rw [hy] at hb
                              simp only [Option.some_bind, Option.some_inj] at hb
                              subst hb
                              have hf : (fr.map Prod.fst).get? i = some f := by
                                rw [List.get?_map, hri]; rfl
                              have hr : (fr.map Prod.snd).get? i = some (yi - f) := by
                                rw [List.get?_map, hri]; rfl
                              have h1 : (fr.map Prod.fst).getD i 0 = f := by
                                rw [List.getD_eq_get?, hf]; rfl
                              have h2 : (fr.map Prod.snd).getD i 0 = yi - f := by
                                rw [List.getD_eq_get?, hr]; rfl
                              have h3 : y.getD i 0 = yi := by
                                rw [List.getD_eq_get?, hy]; rfl
                              simp only [h1, h2, h3]
                              ring

theorem NLRQ_fit_identity {y : List ℚ} {x : List (List ℚ)} {model : NonLinearModel}
    {beta0 : List ℚ} {tau : ℚ} {fit : NLRQFit}
    (h : NLRQ y x model beta0 tau = some (Except.ok fit)) :
    fit.N = y.length ∧ fit.Fitted.length = fit.N ∧ fit.Residuals.length = fit.N ∧
    ∀ i, i < fit.N → fit.Fitted.getD i 0 + fit.Residuals.getD i 0 = y.getD i 0 := by
  simp only [NLRQ] at h
  split at h
  · simp at h
  · split at h
    · simp at h
    · split at h
      · simp at h
      · cases hc : solveInteriorPoint tau y x model beta0 with
        | none => rw [hc] at h; simp at h
        | some coef =>
            rw [hc] at h
            simp only [Option.pure_def, Option.bind_eq_bind, Option.some_bind] at h
            cases hm : List.mapM (fun i =>
                (x.get? i).bind fun xi =>
                  (y.get? i).bind fun yi => some (model.F coef xi, yi - model.F coef xi))
                (List.range y.length) with
            | none => rw [hm] at h; simp at h
            | some fr =>
                rw [hm] at h
                simp only [Option.some_bind, Option.some_inj, Except.ok.injEq] at h
                subst h
                obtain ⟨hlen, hget⟩ := mapM_some_charac _ _ hm
                refine ⟨rfl, ?_, ?_, ?_⟩
                · simp [hlen]
                · simp [hlen]
                · intro i hi
                  obtain ⟨b, hb, hri⟩ := hget i i (List.get?_range hi)
                  cases hrow : x.get? i with
                  | none => rw [hrow] at hb; simp at hb
                  | some xi =>
                      rw [hrow] at hb
                      simp only [Option.pure_def, Option.bind_eq_bind, Option.some_bind] at hb
                      cases hy : y.get? i with
                      | none => rw [hy] at hb; simp at hb
                      | some yi =>
                          rw [hy] at hb
                          simp only [Option.some_bind, Option.some_inj] at hb
                          subst hb
                          have hf : (fr.map Prod.fst).get? i = some (model.F coef xi) := by
                            rw [List.get?_map, hri]; rfl
                          have hr : (fr.map Prod.snd).get? i = some (yi - model.F coef xi) := by
                            rw [List.get?_map, hri]; rfl
                          have h1 : (fr.map Prod.fst).getD i 0 = model.F coef xi := by
                            rw [List.getD_eq_get?, hf]; rfl
                          have h2 : (fr.map Prod.snd).getD i 0 = yi - model.F coef xi := by
                            rw [List.getD_eq_get?, hr]; rfl
                          have h3 : y.getD i 0 = yi := by
                            rw [List.getD_eq_get?, hy]; rfl
                          simp only [h1, h2, h3]
                          ring

/-- C7: for every successful fit returned by RQ or NLRQ, the residual and
fitted vectors both have length N (= the number of observations), and
`fitted[i] + residuals[i] = y[i]` holds exactly for every index, since the
residual is defined as `y[i]` minus the fitted value. -/
theorem C7_fit_plus_residual_eq_y :
    (∀ (y : List ℚ) (x : List (List ℚ)) (tau : ℚ) (fit : RQFit),
      RQ y x tau = some (Except.ok fit) →
      fit.N = y.length ∧ fit.Fitted.length = fit.N ∧ fit.Residuals.length = fit.N ∧
      ∀ i, i < fit.N → fit.Fitted.getD i 0 + fit.Residuals.getD i 0 = y.getD i 0) ∧
    (∀ (y : List ℚ) (x : List (List ℚ)) (model : NonLinearModel) (beta0 : List ℚ)
      (tau : ℚ) (fit : NLRQFit),
      NLRQ y x model beta0 tau = some (Except.ok fit) →
      fit.N = y.length ∧ fit.Fitted.length = fit.N ∧ fit.Residuals.length = fit.N ∧
      ∀ i, i < fit.N → fit.Fitted.getD i 0 + fit.Residuals.getD i 0 = y.getD i 0) :=
  ⟨fun _ _ _ _ h => RQ_fit_identity h, fun _ _ _ _ _ _ h => NLRQ_fit_identity h⟩

/-- The constant-zero model with an empty parameter vector, used to build
concrete non-linear fits in witnesses. -/
def constModel : NonLinearModel :=
  { F := fun _ _ => 0, Gradient := fun _ _ => [] }

/-- The result of `RQ [1] [[0]] (1/2)`: with a zero covariate the gradient
vanishes and the solver stops on the first iteration at the zero solution. -/
def rqWitFit : RQFit :=
  { Coefficients := [0], Residuals := [1], Fitted := [0], Tau := 1/2,
    N := 1, P := 1, Method := "br", Formula := "" }

theorem RQ_wit_eval : RQ [1] [[0]] (1/2) = some (Except.ok rqWitFit) := by
  rw [RQ]
  norm_num [solveBarrodaleRoberts, NewCSRMatrix, CSRMatrix.ToDense, maxIter]
  rw [(by norm_num : (1000 : ℕ) = 999 + 1), brLoop]
  norm_num [rqWitFit, brResiduals, brGradAt, dotPrefix, tolerance, List.range_succ,
    List.mapM.loop]

/-- The result of `NLRQ [1] [[1]] constModel [] (1/2)`: with no parameters the
objective gradient is empty and the solver stops immediately. -/
def nlrqWitFit : NLRQFit :=
  { Coefficients := [], Residuals := [1], Fitted := [0], Tau := 1/2,
    N := 1, P := 0, Model := constModel, Formula := "" }

theorem NLRQ_wit_eval : NLRQ [1] [[1]] constModel [] (1/2) = some (Except.ok nlrqWitFit) := by
  rw [NLRQ]
  norm_num [solveInteriorPoint, maxIter]
  rw [(by norm_num : (1000 : ℕ) = 999 + 1), ipLoop]
  norm_num [nlrqWitFit, constModel, ipGradAt, tolerance, List.range_succ, List.mapM.loop]

/-- C7 witness: the identity instantiated at a concrete linear fit and a
concrete non-linear fit. -/
theorem C7_fit_plus_residual_eq_y_witness :
    (rqWitFit.N = ([(1 : ℚ)] : List ℚ).length ∧
      rqWitFit.Fitted.length = rqWitFit.N ∧ rqWitFit.Residuals.length = rqWitFit.N ∧
      ∀ i, i < rqWitFit.N →
        rqWitFit.Fitted.getD i 0 + rqWitFit.Residuals.getD i 0 = ([(1 : ℚ)] : List ℚ).getD i 0) ∧
    (nlrqWitFit.N = ([(1 : ℚ)] : List ℚ).length ∧
      nlrqWitFit.Fitted.length = nlrqWitFit.N ∧ nlrqWitFit.Residuals.length = nlrqWitFit.N ∧
      ∀ i, i < nlrqWitFit.N →
        nlrqWitFit.Fitted.getD i 0 + nlrqWitFit.Residuals.getD i 0 =
          ([(1 : ℚ)] : List ℚ).getD i 0) :=
  ⟨C7_fit_plus_residual_eq_y.1 [1] [[0]] (1/2) rqWitFit RQ_wit_eval,
   C7_fit_plus_residual_eq_y.2 [1] [[1]] constModel [] (1/2) nlrqWitFit NLRQ_wit_eval⟩

/-! ### Totality of the solvers on well-shaped inputs -/

theorem mapM_isSome {α β : Type} {f : α → Option β} :
    ∀ (l : List α), (∀ a ∈ l, (f a).isSome) →
    ∃ r, l.mapM f = some r ∧ r.length = l.length
  | [], _ => ⟨[], rfl, rfl⟩
  | a :: l, H => by
      obtain ⟨b, hb⟩ := Option.isSome_iff_exists.mp (H a (List.mem_cons_self a l))
      obtain ⟨r, hr, hlen⟩ := mapM_isSome l (fun a ha => H a (List.mem_cons_of_mem _ ha))
      refine ⟨b :: r, ?_, by simp [hlen]⟩
      rw [List.mapM_cons, hb, hr]
      rfl

theorem dotPrefix_some {row sol : List ℚ} {p : ℕ} (h1 : p ≤ row.length)
    (h2 : p ≤ sol.length) : ∃ v, dotPrefix row sol p = some v := by
  refine ⟨(List.range p).foldl (fun pred j => pred + row.getD j 0 * sol.getD j 0) 0, ?_⟩
  rw [dotPrefix, foldlM_pure_eq (List.range p)
    (h := fun pred j => pred + row.getD j 0 * sol.getD j 0)]
  intro b j hj
  have hjp : j < p := List.mem_range.mp hj
  rw [get?_eq_getD_of_lt (lt_of_lt_of_le hjp h1) 0]
  simp only [Option.pure_def, Option.bind_eq_bind, Option.some_bind]
  rw [get?_eq_getD_of_lt (lt_of_lt_of_le hjp h2) 0]
  rfl

theorem brResiduals_some {y : List ℚ} {xd : List (List ℚ)} {p : ℕ} {sol : List ℚ}
    (hxd : y.length ≤ xd.length) (hrow : ∀ row ∈ xd, p ≤ row.length)
    (hsol : p ≤ sol.length) :
    ∃ res, brResiduals y xd p sol = some res ∧ res.length = y.length := by
  have hbody : ∀ i ∈ List.range y.length,
      ((do
        let row ← xd.get? i
        let pred ← dotPrefix row sol p
        let yi ← y.get? i
        pure (yi - pred) : Option ℚ)).isSome := by
    intro i hi
    have hin : i < y.length := List.mem_range.mp hi
    have hxi := get?_eq_getD_of_lt (lt_of_lt_of_le hin hxd) ([] : List ℚ)
    simp only [Option.pure_def, Option.bind_eq_bind]
    rw [hxi]
    simp only [Option.some_bind]
    obtain ⟨v, hv⟩ := dotPrefix_some (hrow _ (List.get?_mem hxi)) hsol
    rw [hv]
    simp only [Option.some_bind]
    rw [get?_eq_getD_of_lt hin 0]
    rfl
  obtain ⟨r, hr, hlen⟩ := mapM_isSome (List.range y.length) hbody
  exact ⟨r, by rw [brResiduals]; exact hr, by simpa using hlen⟩

theorem brLoop_total {tau : ℚ} {y : List ℚ} {xd : List (List ℚ)} {p : ℕ}
    (hxd : y.length ≤ xd.length) (hrow : ∀ row ∈ xd, p ≤ row.length) :
    ∀ (fuel : ℕ) (sol : List ℚ), sol.length = p →
    ∃ out, brLoop tau y xd p fuel sol = some out ∧ out.length = p
  | 0, sol, hsol => ⟨sol, rfl, hsol⟩
  | fuel + 1, sol, hsol => by
      obtain ⟨res, hres, hreslen⟩ := brResiduals_some hxd hrow (le_of_eq hsol.symm)
      have hgradsome : ∀ i ∈ List.range p, (brGradAt xd res tau y.length i).isSome := by
        intro i hi
        have hip : i < p := List.mem_range.mp hi
        rw [brGradAt_eq_subgradSum xd res tau y.length i (le_of_eq hreslen.symm) hxd
          (fun row hrw => lt_of_lt_of_le hip (hrow row hrw))]
        rfl
      obtain ⟨grads, hgrads, hgradlen⟩ :=
        mapM_isSome (f := fun i => brGradAt xd res tau y.length i) (List.range p) hgradsome
      simp only [brLoop]
      rw [hres]
      simp only [Option.pure_def, Option.bind_eq_bind, Option.some_bind]
      rw [hgrads]
      simp only [Option.some_bind]
      split
      · exact ⟨sol, rfl, hsol⟩
      · exact brLoop_total hxd hrow fuel _
          (by simp [List.length_zipWith, hsol, hgradlen])

theorem RQ_ok_total {y : List ℚ} {x : List (List ℚ)} {tau : ℚ}
    (hy : y.length ≠ 0) (hx : x.length ≠ 0) (hlen : y.length = x.length)
    (ht0 : 0 < tau) (ht1 : tau < 1)
    (hrows : ∀ row ∈ x, (x.headD []).length ≤ row.length) :
    ∃ fit coef, solveBarrodaleRoberts tau y (NewCSRMatrix x) = some coef ∧
      RQ y x tau = some (Except.ok fit) ∧ fit.Coefficients = coef ∧
      fit.N = y.length ∧ fit.P = (x.headD []).length ∧ fit.Tau = tau ∧
      fit.Formula = "" := by
  have hxd : y.length ≤ x.length := le_of_eq hlen
  obtain ⟨coef, hcoef, hcoeflen⟩ :=
    @brLoop_total tau y x (x.headD []).length hxd hrows maxIter
      (List.replicate (x.headD []).length 0) (List.length_replicate _ _)
  have hsolve : solveBarrodaleRoberts tau y (NewCSRMatrix x) = some coef := hcoef
  have hbody : ∀ i ∈ List.range y.length,
      ((do
        let row ← x.get? i
        let fitted ← dotPrefix row coef ((x.headD []).length)
        let yi ← y.get? i
        pure (fitted, yi - fitted) : Option (ℚ × ℚ))).isSome := by
    intro i hi
    have hin : i < y.length := List.mem_range.mp hi
    have hxi := get?_eq_getD_of_lt (lt_of_lt_of_le hin hxd) ([] : List ℚ)
    simp only [Option.pure_def, Option.bind_eq_bind]
    rw [hxi]
    simp only [Option.some_bind]
    obtain ⟨v, hv⟩ := dotPrefix_some (hrows _ (List.get?_mem hxi)) (le_of_eq hcoeflen.symm)
    rw [hv]
    simp only [Option.some_bind]
    rw [get?_eq_getD_of_lt hin 0]
    rfl
  obtain ⟨fr, hfr, _⟩ := mapM_isSome (List.range y.length) hbody
  refine ⟨{ Coefficients := coef, Residuals := fr.map Prod.snd, Fitted := fr.map Prod.fst,
            Tau := tau, N := y.length, P := (x.headD []).length, Method := "br",
            Formula := "" },
          coef, hsolve, ?_, rfl, rfl, rfl, rfl, rfl⟩
  simp only [RQ]
  rw [if_neg (by simp [hy, hx]), if_neg (by simp [hlen]),
    if_neg (by push_neg; exact ⟨ht0, ht1⟩)]
  simp only [Option.pure_def, Option.bind_eq_bind]
  rw [hsolve]
  simp only [Option.some_bind]
  simp only [Option.pure_def, Option.bind_eq_bind] at hfr
  rw [hfr]
  rfl

theorem ipLoop_total {tau mu : ℚ} {y : List ℚ} {x : List (List ℚ)}
    {model : NonLinearModel} {p : ℕ} (hx : y.length ≤ x.length)
    (hgrad : ∀ beta xi, (model.Gradient beta xi).length = p) :
    ∀ (fuel : ℕ) (beta : List ℚ) (t : ℚ), beta.length = p →
    ∃ out, ipLoop tau mu y x model p fuel beta t = some out ∧ out.length = p
  | 0, beta, _, hbeta => ⟨beta, rfl, hbeta⟩
  | fuel + 1, beta, t, hbeta => by
      have hbody : ∀ i ∈ List.range y.length,
          ((do
            let xi ← x.get? i
            let yi ← y.get? i
            pure (yi - model.F beta xi, model.Gradient beta xi) :
              Option (ℚ × List ℚ))).isSome := by
        intro i hi
        have hin : i < y.length := List.mem_range.mp hi
        simp only [Option.pure_def, Option.bind_eq_bind]
        rw [get?_eq_getD_of_lt (lt_of_lt_of_le hin hx) []]
        simp only [Option.some_bind]
        rw [get?_eq_getD_of_lt hin 0]
        rfl
      obtain ⟨rg, hrg, hrglen⟩ := mapM_isSome (List.range y.length) hbody
      obtain ⟨hrgn, hrget⟩ := mapM_some_charac _ _ hrg
      have hgmem : ∀ gi ∈ rg.map Prod.snd, ∀ j, j < p → j < gi.length := by
        intro gi hgi j hj
        obtain ⟨k, hk⟩ := List.mem_iff_get?.mp hgi
        rw [List.get?_map] at hk
        cases hrk : rg.get? k with
        | none => rw [hrk] at hk; exact Option.noConfusion hk
        | some pr =>
            rw [hrk] at hk
            simp only [Option.map_some', Option.some_inj] at hk
            have hklt : k < y.length := by
              have hkrg : k < rg.length := by
                by_contra hcon
                rw [List.get?_eq_none.mpr (Nat.le_of_not_lt hcon)] at hrk
                exact Option.noConfusion hrk
              have := hrglen
              simp only [List.length_range] at this
              omega
            obtain ⟨b, hbdy, hbr⟩ := hrget k k (List.get?_range hklt)
            have hpr : pr = b := Option.some_inj.mp (hrk.symm.trans hbr)
            subst hpr
            simp only [Option.pure_def, Option.bind_eq_bind] at hbdy
            cases hxk : x.get? k with
            | none => rw [hxk] at hbdy; exact Option.noConfusion hbdy
            | some xk =>
                rw [hxk] at hbdy
                simp only [Option.some_bind] at hbdy
                cases hyk : y.get? k with
                | none => rw [hyk] at hbdy; exact Option.noConfusion hbdy
                | some yk =>
                    rw [hyk] at hbdy
                    simp only [Option.some_bind, Option.some_inj] at hbdy
                    rw [← hk, ← hbdy]
                    rw [hgrad beta xk]
                    exact hj
      have hresn : (rg.map Prod.fst).length = y.length := by
        simpa using hrglen
      have hgn : (rg.map Prod.snd).length = y.length := by
        simpa using hrglen
      have hobjsome : ∀ j ∈ List.range p,
          (ipGradAt (rg.map Prod.snd) (rg.map Prod.fst) tau y.length j).isSome := by
        intro j hj
        have hjp : j < p := List.mem_range.mp hj
        rw [ipGradAt_eq_subgradSum (rg.map Prod.snd) (rg.map Prod.fst) tau y.length j
          (le_of_eq hresn.symm) (le_of_eq hgn.symm)
          (fun gi hgi => hgmem gi hgi j hjp)]
        rfl
      obtain ⟨objGrad, hobj, hobjlen⟩ := mapM_isSome (List.range p) hobjsome
      simp only [ipLoop, Option.pure_def, Option.bind_eq_bind]
      simp only [Option.pure_def, Option.bind_eq_bind] at hrg
      rw [hrg]
      simp only [Option.some_bind]
      rw [hobj]
      simp only [Option.some_bind]
      split
      · exact ⟨beta, rfl, hbeta⟩
      · exact ipLoop_total hx hgrad fuel _ _
          (by simp [List.length_zipWith, hbeta, hobjlen])

theorem NLRQ_ok_total {y : List ℚ} {x : List (List ℚ)} {model : NonLinearModel}
    {beta0 : List ℚ} {tau : ℚ}
    (hy : y.length ≠ 0) (hx : x.length ≠ 0) (hlen : y.length = x.length)
    (ht0 : 0 < tau) (ht1 : tau < 1)
    (hgrad : ∀ beta xi, (model.Gradient beta xi).length = beta0.length) :
    ∃ fit coef, solveInteriorPoint tau y x model beta0 = some coef ∧
      NLRQ y x model beta0 tau = some (Except.ok fit) ∧ fit.Coefficients = coef ∧
      fit.N = y.length ∧ fit.P = beta0.length ∧ fit.Tau = tau ∧
      fit.Formula = "" := by
  have hxd : y.length ≤ x.length := le_of_eq hlen
  obtain ⟨coef, hcoef, _⟩ :=
    @ipLoop_total tau 10 y x model beta0.length hxd hgrad maxIter beta0 1 rfl
  have hsolve : solveInteriorPoint tau y x model beta0 = some coef := hcoef
  have hbody : ∀ i ∈ List.range y.length,
      ((do
        let xi ← x.get? i
        let yi ← y.get? i
        pure (model.F coef xi, yi - model.F coef xi) : Option (ℚ × ℚ))).isSome := by
    intro i hi
    have hin : i < y.length := List.mem_range.mp hi
    simp only [Option.pure_def, Option.bind_eq_bind]
    rw [get?_eq_getD_of_lt (lt_of_lt_of_le hin hxd) []]
    simp only [Option.some_bind]
    rw [get?_eq_getD_of_lt hin 0]
    rfl
  obtain ⟨fr, hfr, _⟩ := mapM_isSome (List.range y.length) hbody
  refine ⟨{ Coefficients := coef, Residuals := fr.map Prod.snd, Fitted := fr.map Prod.fst,
            Tau := tau, N := y.length, P := beta0.length, Model := model,
            Formula := "" },
          coef, hsolve, ?_, rfl, rfl, rfl, rfl, rfl⟩
  simp only [NLRQ]
  rw [if_neg (by simp [hy, hx]), if_neg (by simp [hlen]),
    if_neg (by push_neg; exact ⟨ht0, ht1⟩)]
  simp only [Option.pure_def, Option.bind_eq_bind]
  rw [hsolve]
  simp only [Option.some_bind]
  simp only [Option.pure_def, Option.bind_eq_bind] at hfr
  rw [hfr]
  rfl

/-! ### Characterization of the multi-fit loops -/

theorem rqFitLoop_ok {y : List ℚ} {x : List (List ℚ)} :
    ∀ (ts : List ℚ) (fits : ℚ → Option RQFit) (firstFit : Option RQFit),
    (∀ τ ∈ ts, ∃ fit, RQ y x τ = some (Except.ok fit)) →
    ∃ fits' ff',
      rqFitLoop y x ts fits firstFit = some (Except.ok (fits', ff')) ∧
      (∀ τ, τ ∉ ts → fits' τ = fits τ) ∧
      (∀ τ fit, τ ∈ ts → RQ y x τ = some (Except.ok fit) → fits' τ = some fit) ∧
      (∀ f, firstFit = some f → ff' = some f) ∧
      (∀ t rest, firstFit = none → ts = t :: rest →
        ∀ fit, RQ y x t = some (Except.ok fit) → ff' = some fit)
  | [], fits, firstFit, _ =>
      ⟨fits, firstFit, rfl, fun _ _ => rfl,
       fun τ fit hτ _ => absurd hτ (List.not_mem_nil τ),
       fun _ hf => hf, fun _ _ _ hts => List.noConfusion hts⟩
  | t :: rest, fits, firstFit, H => by
      obtain ⟨fitT, hfitT⟩ := H t (List.mem_cons_self t rest)
      obtain ⟨fits', ff', hloop, hnot, hmemfit, hfirstSome, _⟩ :=
        rqFitLoop_ok rest (fun τ => if τ = t then some fitT else fits τ)
          (match firstFit with
           | none => some fitT
           | some f => some f)
          (fun τ hτ => H τ (List.mem_cons_of_mem _ hτ))
      refine ⟨fits', ff', ?_, ?_, ?_, ?_, ?_⟩
      · simp only [rqFitLoop, Option.pure_def, Option.bind_eq_bind]
        rw [hfitT]
        simp only [Option.some_bind]
        exact hloop
      · intro τ hτ
        have hτt : τ ≠ t := fun h => hτ (h ▸ List.mem_cons_self t rest)
        have hτrest : τ ∉ rest := fun h => hτ (List.mem_cons_of_mem _ h)
        rw [hnot τ hτrest]
        simp [hτt]
      · intro τ fit hτ hfit
        rcases List.mem_cons.mp hτ with h | h
        · subst h
          by_cases hr : τ ∈ rest
          · exact hmemfit τ fit hr hfit
          · rw [hnot τ hr]
            have hft : fit = fitT :=
              Except.ok.inj (Option.some_inj.mp (hfit.symm.trans hfitT))
            simp [hft]
        · exact hmemfit τ fit h hfit
      · intro f hf
        subst hf
        exact hfirstSome f rfl
      · intro t' rest' hnone hts fit hfit
        have ht' : t' = t := (List.cons.inj hts.symm).1
        subst ht'
        subst hnone
        have hft : fit = fitT :=
          Except.ok.inj (Option.some_inj.mp (hfit.symm.trans hfitT))
        subst hft
        exact hfirstSome fit rfl

theorem nlFitLoop_ok {y : List ℚ} {x : List (List ℚ)} {model : NonLinearModel}
    {beta0 : List ℚ} :
    ∀ (ts : List ℚ) (fits : ℚ → Option NLRQFit) (firstFit : Option NLRQFit),
    (∀ τ ∈ ts, ∃ fit, NLRQ y x model beta0 τ = some (Except.ok fit)) →
    ∃ fits' ff',
      nlFitLoop y x model beta0 ts fits firstFit = some (Except.ok (fits', ff')) ∧
      (∀ τ, τ ∉ ts → fits' τ = fits τ) ∧
      (∀ τ fit, τ ∈ ts → NLRQ y x model beta0 τ = some (Except.ok fit) →
        fits' τ = some fit) ∧
      (∀ f, firstFit = some f → ff' = some f) ∧
      (∀ t rest, firstFit = none → ts = t :: rest →
        ∀ fit, NLRQ y x model beta0 t = some (Except.ok fit) → ff' = some fit)
  | [], fits, firstFit, _ =>
      ⟨fits, firstFit, rfl, fun _ _ => rfl,
       fun τ fit hτ _ => absurd hτ (List.not_mem_nil τ),
       fun _ hf => hf, fun _ _ _ hts => List.noConfusion hts⟩
  | t :: rest, fits, firstFit, H => by
      obtain ⟨fitT, hfitT⟩ := H t (List.mem_cons_self t rest)
      obtain ⟨fits', ff', hloop, hnot, hmemfit, hfirstSome, _⟩ :=
        nlFitLoop_ok rest (fun τ => if τ = t then some fitT else fits τ)
          (match firstFit with
           | none => some fitT
           | some f => some f)
          (fun τ hτ => H τ (List.mem_cons_of_mem _ hτ))
      refine ⟨fits', ff', ?_, ?_, ?_, ?_, ?_⟩
      · simp only [nlFitLoop, Option.pure_def, Option.bind_eq_bind]
        rw [hfitT]
        simp only [Option.some_bind]
        exact hloop
      · intro τ hτ
        have hτt : τ ≠ t := fun h => hτ (h ▸ List.mem_cons_self t rest)
        have hτrest : τ ∉ rest := fun h => hτ (List.mem_cons_of_mem _ h)
        rw [hnot τ hτrest]
        simp [hτt]
      · intro τ fit hτ hfit
        rcases List.mem_cons.mp hτ with h | h
        · subst h
          by_cases hr : τ ∈ rest
          · exact hmemfit τ fit hr hfit
          · rw [hnot τ hr]
            have hft : fit = fitT :=
              Except.ok.inj (Option.some_inj.mp (hfit.symm.trans hfitT))
            simp [hft]
        · exact hmemfit τ fit h hfit
      · intro f hf
        subst hf
        exact hfirstSome f rfl
      · intro t' rest' hnone hts fit hfit
        have ht' : t' = t := (List.cons.inj hts.symm).1
        subst ht'
        subst hnone
        have hft : fit = fitT :=
          Except.ok.inj (Option.some_inj.mp (hfit.symm.trans hfitT))
        subst hft
        exact hfirstSome fit rfl

theorem RQ_invalidTau {y : List ℚ} {x : List (List ℚ)} {tau : ℚ}
    (hy : y.length ≠ 0) (hx : x.length ≠ 0) (hlen : y.length = x.length)
    (htau : tau ≤ 0 ∨ 1 ≤ tau) :
    RQ y x tau = some (Except.error QRError.InvalidTau) := by
  simp only [RQ]
  rw [if_neg (by simp [hy, hx]), if_neg (by simp [hlen]), if_pos htau]

theorem NLRQ_invalidTau {y : List ℚ} {x : List (List ℚ)} {model : NonLinearModel}
    {beta0 : List ℚ} {tau : ℚ}
    (hy : y.length ≠ 0) (hx : x.length ≠ 0) (hlen : y.length = x.length)
    (htau : tau ≤ 0 ∨ 1 ≤ tau) :
    NLRQ y x model beta0 tau = some (Except.error QRError.InvalidTau) := by
  simp only [NLRQ]
  rw [if_neg (by simp [hy, hx]), if_neg (by simp [hlen]), if_pos htau]

theorem sortFloat64s_mem {taus : List ℚ} {t : ℚ} :
    t ∈ sortFloat64s taus ↔ t ∈ taus :=
  (List.perm_insertionSort (· ≤ ·) taus).mem_iff

theorem RQProcess_invalidTau {y : List ℚ} {x : List (List ℚ)} {taus : List ℚ}
    (hne : taus.length ≠ 0) (hbad : ∃ t ∈ taus, t ≤ 0 ∨ 1 ≤ t) :
    RQProcess y x taus = some (Except.error QRError.InvalidTau) := by
  simp only [RQProcess]
  rw [if_neg hne, if_pos ?_]
  obtain ⟨t, ht, hbt⟩ := hbad
  refine List.any_eq_true.mpr ⟨t, sortFloat64s_mem.mpr ht, ?_⟩
  rcases hbt with h | h <;> simp [h]

theorem NLRQProcess_invalidTau {y : List ℚ} {x : List (List ℚ)}
    {model : NonLinearModel} {beta0 : List ℚ} {taus : List ℚ}
    (hne : taus.length ≠ 0) (hbad : ∃ t ∈ taus, t ≤ 0 ∨ 1 ≤ t) :
    NLRQProcess y x model beta0 taus = some (Except.error QRError.InvalidTau) := by
  simp only [NLRQProcess]
  rw [if_neg hne, if_pos ?_]
  obtain ⟨t, ht, hbt⟩ := hbad
  refine List.any_eq_true.mpr ⟨t, sortFloat64s_mem.mpr ht, ?_⟩
  rcases hbt with h | h <;> simp [h]

theorem RQProcess_ok {y : List ℚ} {x : List (List ℚ)} {taus : List ℚ}
    (hne : taus ≠ []) (hvalid : ∀ τ ∈ taus, 0 < τ ∧ τ < 1)
    (hy : y.length ≠ 0) (hx : x.length ≠ 0) (hlen : y.length = x.length)
    (hrows : ∀ row ∈ x, (x.headD []).length ≤ row.length) :
    ∃ mf, RQProcess y x taus = some (Except.ok mf) ∧
      mf.Taus = sortFloat64s taus ∧ mf.Method = "br" ∧
      (∀ τ, (mf.Fits τ).isSome ↔ τ ∈ taus) ∧
      (∀ τ fit, τ ∈ taus → RQ y x τ = some (Except.ok fit) → mf.Fits τ = some fit) ∧
      mf.N = y.length ∧ mf.P = (x.headD []).length ∧
      (∀ fit, RQ y x ((sortFloat64s taus).headD 0) = some (Except.ok fit) →
        mf.N = fit.N ∧ mf.P = fit.P) := by
  have hok : ∀ τ ∈ sortFloat64s taus, ∃ fit, RQ y x τ = some (Except.ok fit) := by
    intro τ hτ
    obtain ⟨hτ0, hτ1⟩ := hvalid τ (sortFloat64s_mem.mp hτ)
    obtain ⟨fit, _, _, hfit, _⟩ := RQ_ok_total hy hx hlen hτ0 hτ1 hrows
    exact ⟨fit, hfit⟩
  obtain ⟨fits', ff', hloop, hnot, hmemfit, _, hfirstNone⟩ :=
    rqFitLoop_ok (sortFloat64s taus) (fun _ => none) none hok
  have hsne : sortFloat64s taus ≠ [] := by
    intro h
    have := List.length_insertionSort (α := ℚ) (· ≤ ·) taus
    rw [show List.insertionSort (· ≤ ·) taus = sortFloat64s taus from rfl, h] at this
    exact hne (List.length_eq_zero.mp this.symm)
  obtain ⟨t0, rest0, hcons⟩ : ∃ t rest, sortFloat64s taus = t :: rest := by
    cases hs : sortFloat64s taus with
    | nil => exact absurd hs hsne
    | cons a l => exact ⟨a, l, rfl⟩
  have ht0mem : t0 ∈ taus := sortFloat64s_mem.mp (hcons ▸ List.mem_cons_self t0 rest0)
  obtain ⟨ht00, ht01⟩ := hvalid t0 ht0mem
  obtain ⟨fit0, _, _, hfit0, _, hN0, hP0, _⟩ := RQ_ok_total hy hx hlen ht00 ht01 hrows
  have hff : ff' = some fit0 := hfirstNone t0 rest0 rfl hcons fit0 hfit0
  refine ⟨{ Fits := fits', Taus := sortFloat64s taus, N := fit0.N, P := fit0.P,
            Method := "br", Formula := fit0.Formula },
          ?_, rfl, rfl, ?_, ?_, hN0, hP0, ?_⟩
  · simp only [RQProcess]
    rw [if_neg (fun h => hne (List.length_eq_zero.mp h)), if_neg ?_]
    · simp only [Option.pure_def, Option.bind_eq_bind]
      rw [hloop]
      simp only [Option.some_bind]
      rw [hff]
    · rw [Bool.not_eq_true, List.any_eq_false]
      intro τ hτ
      obtain ⟨h0, h1⟩ := hvalid τ (sortFloat64s_mem.mp hτ)
      simp [not_le.mpr h0, not_le.mpr h1]
  · intro τ
    show (fits' τ).isSome ↔ τ ∈ taus
    constructor
    · intro hsome
      by_contra hmem
      rw [hnot τ (fun h => hmem (sortFloat64s_mem.mp h))] at hsome
      exact Bool.noConfusion hsome
    · intro hmem
      obtain ⟨h0, h1⟩ := hvalid τ hmem
      obtain ⟨fit, _, _, hfit, _⟩ := RQ_ok_total hy hx hlen h0 h1 hrows
      rw [hmemfit τ fit (sortFloat64s_mem.mpr hmem) hfit]
      rfl
  · intro τ fit hmem hfit
    show fits' τ = some fit
    exact hmemfit τ fit (sortFloat64s_mem.mpr hmem) hfit
  · intro fit hfit
    rw [hcons] at hfit
    simp only [List.headD_cons] at hfit
    have hfe : fit = fit0 := Except.ok.inj (Option.some_inj.mp (hfit.symm.trans hfit0))
    subst hfe
    exact ⟨rfl, rfl⟩

theorem NLRQProcess_ok {y : List ℚ} {x : List (List ℚ)} {model : NonLinearModel}
    {beta0 : List ℚ} {taus : List ℚ}
    (hne : taus ≠ []) (hvalid : ∀ τ ∈ taus, 0 < τ ∧ τ < 1)
    (hy : y.length ≠ 0) (hx : x.length ≠ 0) (hlen : y.length = x.length)
    (hgrad : ∀ beta xi, (model.Gradient beta xi).length = beta0.length) :
    ∃ mf, NLRQProcess y x model beta0 taus = some (Except.ok mf) ∧
      mf.Taus = sortFloat64s taus ∧
      (∀ τ, (mf.Fits τ).isSome ↔ τ ∈ taus) ∧
      (∀ τ fit, τ ∈ taus → NLRQ y x model beta0 τ = some (Except.ok fit) →
        mf.Fits τ = some fit) ∧
      mf.N = y.length ∧ mf.P = beta0.length ∧
      (∀ fit, NLRQ y x model beta0 ((sortFloat64s taus).headD 0) = some (Except.ok fit) →
        mf.N = fit.N ∧ mf.P = fit.P) := by
  have hok : ∀ τ ∈ sortFloat64s taus, ∃ fit, NLRQ y x model beta0 τ = some (Except.ok fit) := by
    intro τ hτ
    obtain ⟨hτ0, hτ1⟩ := hvalid τ (sortFloat64s_mem.mp hτ)
    obtain ⟨fit, _, _, hfit, _⟩ := NLRQ_ok_total hy hx hlen hτ0 hτ1 hgrad
    exact ⟨fit, hfit⟩
  obtain ⟨fits', ff', hloop, hnot, hmemfit, _, hfirstNone⟩ :=
    nlFitLoop_ok (sortFloat64s taus) (fun _ => none) none hok
  have hsne : sortFloat64s taus ≠ [] := by
    intro h
    have := List.length_insertionSort (α := ℚ) (· ≤ ·) taus
    rw [show List.insertionSort (· ≤ ·) taus = sortFloat64s taus from rfl, h] at this
    exact hne (List.length_eq_zero.mp this.symm)
  obtain ⟨t0, rest0, hcons⟩ : ∃ t rest, sortFloat64s taus = t :: rest := by
    cases hs : sortFloat64s taus with
    | nil => exact absurd hs hsne
    | cons a l => exact ⟨a, l, rfl⟩
  have ht0mem : t0 ∈ taus := sortFloat64s_mem.mp (hcons ▸ List.mem_cons_self t0 rest0)
  obtain ⟨ht00, ht01⟩ := hvalid t0 ht0mem
  obtain ⟨fit0, _, _, hfit0, _, hN0, hP0, _⟩ := NLRQ_ok_total hy hx hlen ht00 ht01 hgrad
  have hff : ff' = some fit0 := hfirstNone t0 rest0 rfl hcons fit0 hfit0
  refine ⟨{ Fits := fits', Taus := sortFloat64s taus, N := fit0.N, P := fit0.P,
            Model := model, Formula := fit0.Formula },
          ?_, rfl, ?_, ?_, hN0, hP0, ?_⟩
  · simp only [NLRQProcess]
    rw [if_neg (fun h => hne (List.length_eq_zero.mp h)), if_neg ?_]
    · simp only [Option.pure_def, Option.bind_eq_bind]
      rw [hloop]
      simp only [Option.some_bind]
      rw [hff]
    · rw [Bool.not_eq_true, List.any_eq_false]
      intro τ hτ
      obtain ⟨h0, h1⟩ := hvalid τ (sortFloat64s_mem.mp hτ)
      simp [not_le.mpr h0, not_le.mpr h1]
  · intro τ
    show (fits' τ).isSome ↔ τ ∈ taus
    constructor
    · intro hsome
      by_contra hmem
      rw [hnot τ (fun h => hmem (sortFloat64s_mem.mp h))] at hsome
      exact Bool.noConfusion hsome
    · intro hmem
      obtain ⟨h0, h1⟩ := hvalid τ hmem
      obtain ⟨fit, _, _, hfit, _⟩ := NLRQ_ok_total hy hx hlen h0 h1 hgrad
      rw [hmemfit τ fit (sortFloat64s_mem.mpr hmem) hfit]
      rfl
  · intro τ fit hmem hfit
    show fits' τ = some fit
    exact hmemfit τ fit (sortFloat64s_mem.mpr hmem) hfit
  · intro fit hfit
    rw [hcons] at hfit
    simp only [List.headD_cons] at hfit
    have hfe : fit = fit0 := Except.ok.inj (Option.some_inj.mp (hfit.symm.trans hfit0))
    subst hfe
    exact ⟨rfl, rfl⟩

/-! ### C2: tau validation and unconditional optimization success -/

/-- C2: for every tau outside the open interval (0,1) — both endpoints
included — each of RQ, NLRQ, RQProcess and NLRQProcess (the latter two on a
non-empty tau collection, the former two on inputs passing the empty-input and
dimension checks that precede the tau check) fails with InvalidTau; and
non-convergence is never an error: on inputs that pass all the validations
(well-shaped rows for the linear solver, spec-conforming gradient lengths for
the non-linear one), every fit operation returns a successful result whose
coefficients are the iterate produced by the bounded solver loop (`maxIter`
fuel, stopping early only when the largest absolute gradient component falls
below `tolerance`). -/
theorem C2_invalid_tau_and_unconditional_success :
    (∀ (y : List ℚ) (x : List (List ℚ)) (tau : ℚ),
      y.length ≠ 0 → x.length ≠ 0 → y.length = x.length → tau ≤ 0 ∨ 1 ≤ tau →
      RQ y x tau = some (Except.error QRError.InvalidTau)) ∧
    (∀ (y : List ℚ) (x : List (List ℚ)) (model : NonLinearModel) (beta0 : List ℚ)
      (tau : ℚ),
      y.length ≠ 0 → x.length ≠ 0 → y.length = x.length → tau ≤ 0 ∨ 1 ≤ tau →
      NLRQ y x model beta0 tau = some (Except.error QRError.InvalidTau)) ∧
    (∀ (y : List ℚ) (x : List (List ℚ)) (taus : List ℚ),
      taus.length ≠ 0 → (∃ t ∈ taus, t ≤ 0 ∨ 1 ≤ t) →
      RQProcess y x taus = some (Except.error QRError.InvalidTau)) ∧
    (∀ (y : List ℚ) (x : List (List ℚ)) (model : NonLinearModel) (beta0 : List ℚ)
      (taus : List ℚ),
      taus.length ≠ 0 → (∃ t ∈ taus, t ≤ 0 ∨ 1 ≤ t) →
      NLRQProcess y x model beta0 taus = some (Except.error QRError.InvalidTau)) ∧
    (∀ (y : List ℚ) (x : List (List ℚ)) (tau : ℚ),
      y.length ≠ 0 → x.length ≠ 0 → y.length = x.length → 0 < tau → tau < 1 →
      (∀ row ∈ x, (x.headD []).length ≤ row.length) →
      ∃ fit, RQ y x tau = some (Except.ok fit) ∧
        some fit.Coefficients = solveBarrodaleRoberts tau y (NewCSRMatrix x)) ∧
    (∀ (y : List ℚ) (x : List (List ℚ)) (model : NonLinearModel) (beta0 : List ℚ)
      (tau : ℚ),
      y.length ≠ 0 → x.length ≠ 0 → y.length = x.length → 0 < tau → tau < 1 →
      (∀ beta xi, (model.Gradient beta xi).length = beta0.length) →
      ∃ fit, NLRQ y x model beta0 tau = some (Except.ok fit) ∧
        some fit.Coefficients = solveInteriorPoint tau y x model beta0) ∧
    (∀ (y : List ℚ) (x : List (List ℚ)) (taus : List ℚ),
      taus ≠ [] → (∀ τ ∈ taus, 0 < τ ∧ τ < 1) →
      y.length ≠ 0 → x.length ≠ 0 → y.length = x.length →
      (∀ row ∈ x, (x.headD []).length ≤ row.length) →
      ∃ mf, RQProcess y x taus = some (Except.ok mf)) ∧
    (∀ (y : List ℚ) (x : List (List ℚ)) (model : NonLinearModel) (beta0 : List ℚ)
      (taus : List ℚ),
      taus ≠ [] → (∀ τ ∈ taus, 0 < τ ∧ τ < 1) →
      y.length ≠ 0 → x.length ≠ 0 → y.length = x.length →
      (∀ beta xi, (model.Gradient beta xi).length = beta0.length) →
      ∃ mf, NLRQProcess y x model beta0 taus = some (Except.ok mf)) := by
  refine ⟨?_, ?_, ?_, ?_, ?_, ?_, ?_, ?_⟩
  · intro y x tau hy hx hlen htau
    exact RQ_invalidTau hy hx hlen htau
  · intro y x model beta0 tau hy hx hlen htau
    exact NLRQ_invalidTau hy hx hlen htau
  · intro y x taus hne hbad
    exact RQProcess_invalidTau hne hbad
  · intro y x model beta0 taus hne hbad
    exact NLRQProcess_invalidTau hne hbad
  · intro y x tau hy hx hlen ht0 ht1 hrows
    obtain ⟨fit, coef, hsolve, hok, hco, _⟩ := RQ_ok_total hy hx hlen ht0 ht1 hrows
    exact ⟨fit, hok, by rw [hco, hsolve]⟩
  · intro y x model beta0 tau hy hx hlen ht0 ht1 hgrad
    obtain ⟨fit, coef, hsolve, hok, hco, _⟩ := NLRQ_ok_total hy hx hlen ht0 ht1 hgrad
    exact ⟨fit, hok, by rw [hco, hsolve]⟩
  · intro y x taus hne hvalid hy hx hlen hrows
    obtain ⟨mf, hok, _⟩ := RQProcess_ok hne hvalid hy hx hlen hrows
    exact ⟨mf, hok⟩
  · intro y x model beta0 taus hne hvalid hy hx hlen hgrad
    obtain ⟨mf, hok, _⟩ := NLRQProcess_ok hne hvalid hy hx hlen hgrad
    exact ⟨mf, hok⟩

/-- C2 witness: the eight parts instantiated at concrete inputs (tau = 2 for
the InvalidTau parts, tau = 1/2 for the success parts). -/
theorem C2_invalid_tau_and_unconditional_success_witness :
    RQ [1] [[0]] 2 = some (Except.error QRError.InvalidTau) ∧
    NLRQ [1] [[1]] constModel [] 2 = some (Except.error QRError.InvalidTau) ∧
    RQProcess [1] [[0]] [2] = some (Except.error QRError.InvalidTau) ∧
    NLRQProcess [1] [[1]] constModel [] [2] = some (Except.error QRError.InvalidTau) ∧
    (∃ fit, RQ [1] [[0]] (1/2) = some (Except.ok fit) ∧
      some fit.Coefficients = solveBarrodaleRoberts (1/2) [1] (NewCSRMatrix [[0]])) ∧
    (∃ fit, NLRQ [1] [[1]] constModel [] (1/2) = some (Except.ok fit) ∧
      some fit.Coefficients = solveInteriorPoint (1/2) [1] [[1]] constModel []) ∧
    (∃ mf, RQProcess [1] [[0]] [1/2] = some (Except.ok mf)) ∧
    (∃ mf, NLRQProcess [1] [[1]] constModel [] [1/2] = some (Except.ok mf)) :=
  ⟨C2_invalid_tau_and_unconditional_success.1 [1] [[0]] 2
    (by norm_num) (by norm_num) (by norm_num) (by norm_num),
   C2_invalid_tau_and_unconditional_success.2.1 [1] [[1]] constModel [] 2
    (by norm_num) (by norm_num) (by norm_num) (by norm_num),
   C2_invalid_tau_and_unconditional_success.2.2.1 [1] [[0]] [2]
    (by norm_num) ⟨2, by norm_num, by norm_num⟩,
   C2_invalid_tau_and_unconditional_success.2.2.2.1 [1] [[1]] constModel [] [2]
    (by norm_num) ⟨2, by norm_num, by norm_num⟩,
   C2_invalid_tau_and_unconditional_success.2.2.2.2.1 [1] [[0]] (1/2)
    (by norm_num) (by norm_num) (by norm_num) (by norm_num) (by norm_num)
    (by intro row hrow; simp at hrow; simp [hrow]),
   C2_invalid_tau_and_unconditional_success.2.2.2.2.2.1 [1] [[1]] constModel [] (1/2)
    (by norm_num) (by norm_num) (by norm_num) (by norm_num) (by norm_num)
    (by intro beta xi; simp [constModel]),
   C2_invalid_tau_and_unconditional_success.2.2.2.2.2.2.1 [1] [[0]] [1/2]
    (by norm_num) (by intro τ hτ; simp at hτ; simp [hτ]; norm_num)
    (by norm_num) (by norm_num) (by norm_num)
    (by intro row hrow; simp at hrow; simp [hrow]),
   C2_invalid_tau_and_unconditional_success.2.2.2.2.2.2.2 [1] [[1]] constModel [] [1/2]
    (by norm_num) (by intro τ hτ; simp at hτ; simp [hτ]; norm_num)
    (by norm_num) (by norm_num) (by norm_num)
    (by intro beta xi; simp [constModel])⟩

/-! ### C3: the shape of the multi-fit aggregate -/

/-- The tau-key sequence as the spec words it: "the requested tau values
deduplicated and sorted ascending". -/
def dedupSortSpec (taus : List ℚ) : List ℚ :=
  (List.insertionSort (· ≤ ·) taus).dedup

/-- C3 counterexample: requesting the duplicate collection [1/2, 1/2] yields an
aggregate whose Taus sequence is [1/2, 1/2] — the sorted input with duplicates
retained — which differs from the deduplicated sorted sequence [1/2] the claim
asserts. -/
theorem C3_counterexample_taus_not_deduplicated :
    (RQProcess [1] [[0]] [1/2, 1/2]).map (fun r => r.map MultiRQFit.Taus) =
      some (Except.ok [1/2, 1/2]) ∧
    dedupSortSpec [(1 : ℚ)/2, 1/2] = [1/2] ∧
    ([(1 : ℚ)/2, 1/2] : List ℚ) ≠ [1/2] := by
  refine ⟨?_, ?_, by norm_num⟩
  · rw [RQProcess]
    norm_num [sortFloat64s, List.insertionSort, List.orderedInsert, rqFitLoop, RQ,
      solveBarrodaleRoberts, NewCSRMatrix, CSRMatrix.ToDense, maxIter]
    rw [(by norm_num : (1000 : ℕ) = 999 + 1), brLoop]
    norm_num [brResiduals, brGradAt, dotPrefix, tolerance, List.range_succ,
      List.mapM.loop, Except.map]
  · simp [dedupSortSpec, List.insertionSort, List.orderedInsert]

/-- C3 (amended): for a non-empty collection of valid taus on well-shaped
data, RQProcess and NLRQProcess return an aggregate whose Taus sequence is the
requested values sorted ascending with duplicates retained (not deduplicated),
whose Fits mapping holds a fit exactly for the requested tau values (the
distinct ones, since a Go map cannot hold a key twice), and whose N and P
equal the N and P of the fit produced for the first (smallest) tau. -/
theorem C3_process_aggregate_amended :
    (∀ (y : List ℚ) (x : List (List ℚ)) (taus : List ℚ),
      taus ≠ [] → (∀ τ ∈ taus, 0 < τ ∧ τ < 1) →
      y.length ≠ 0 → x.length ≠ 0 → y.length = x.length →
      (∀ row ∈ x, (x.headD []).length ≤ row.length) →
      ∃ mf, RQProcess y x taus = some (Except.ok mf) ∧
        mf.Taus = sortFloat64s taus ∧
        List.Sorted (· ≤ ·) mf.Taus ∧ mf.Taus.Perm taus ∧
        (∀ τ, (mf.Fits τ).isSome ↔ τ ∈ taus) ∧
        (∀ fit, RQ y x (mf.Taus.headD 0) = some (Except.ok fit) →
          mf.N = fit.N ∧ mf.P = fit.P)) ∧
    (∀ (y : List ℚ) (x : List (List ℚ)) (model : NonLinearModel) (beta0 : List ℚ)
      (taus : List ℚ),
      taus ≠ [] → (∀ τ ∈ taus, 0 < τ ∧ τ < 1) →
      y.length ≠ 0 → x.length ≠ 0 → y.length = x.length →
      (∀ beta xi, (model.Gradient beta xi).length = beta0.length) →
      ∃ mf, NLRQProcess y x model beta0 taus = some (Except.ok mf) ∧
        mf.Taus = sortFloat64s taus ∧
        List.Sorted (· ≤ ·) mf.Taus ∧ mf.Taus.Perm taus ∧
        (∀ τ, (mf.Fits τ).isSome ↔ τ ∈ taus) ∧
        (∀ fit, NLRQ y x model beta0 (mf.Taus.headD 0) = some (Except.ok fit) →
          mf.N = fit.N ∧ mf.P = fit.P)) := by
  constructor
  · intro y x taus hne hvalid hy hx hlen hrows
    obtain ⟨mf, hok, hTaus, _, hFits, _, _, _, hfirst⟩ :=
      RQProcess_ok hne hvalid hy hx hlen hrows
    refine ⟨mf, hok, hTaus, ?_, ?_, hFits, ?_⟩
    · rw [hTaus]
      exact List.sorted_insertionSort (· ≤ ·) taus
    · rw [hTaus]
      exact List.perm_insertionSort (· ≤ ·) taus
    · intro fit hfit
      rw [hTaus] at hfit
      exact hfirst fit hfit
  · intro y x model beta0 taus hne hvalid hy hx hlen hgrad
    obtain ⟨mf, hok, hTaus, hFits, _, _, _, hfirst⟩ :=
      NLRQProcess_ok hne hvalid hy hx hlen hgrad
    refine ⟨mf, hok, hTaus, ?_, ?_, hFits, ?_⟩
    · rw [hTaus]
      exact List.sorted_insertionSort (· ≤ ·) taus
    · rw [hTaus]
      exact List.perm_insertionSort (· ≤ ·) taus
    · intro fit hfit
      rw [hTaus] at hfit
      exact hfirst fit hfit

/-- C3 witness: the amended aggregate shape at concrete inputs with the taus
given out of order. -/
theorem C3_process_aggregate_amended_witness :
    (∃ mf, RQProcess [1] [[0]] [3/4, 1/4] = some (Except.ok mf) ∧
      mf.Taus = sortFloat64s [3/4, 1/4] ∧
      List.Sorted (· ≤ ·) mf.Taus ∧ mf.Taus.Perm [3/4, 1/4] ∧
      (∀ τ, (mf.Fits τ).isSome ↔ τ ∈ ([3/4, 1/4] : List ℚ)) ∧
      (∀ fit, RQ [1] [[0]] (mf.Taus.headD 0) = some (Except.ok fit) →
        mf.N = fit.N ∧ mf.P = fit.P)) ∧
    (∃ mf, NLRQProcess [1] [[1]] constModel [] [3/4, 1/4] = some (Except.ok mf) ∧
      mf.Taus = sortFloat64s [3/4, 1/4] ∧
      List.Sorted (· ≤ ·) mf.Taus ∧ mf.Taus.Perm [3/4, 1/4] ∧
      (∀ τ, (mf.Fits τ).isSome ↔ τ ∈ ([3/4, 1/4] : List ℚ)) ∧
      (∀ fit, NLRQ [1] [[1]] constModel [] (mf.Taus.headD 0) = some (Except.ok fit) →
        mf.N = fit.N ∧ mf.P = fit.P)) :=
  ⟨C3_process_aggregate_amended.1 [1] [[0]] [3/4, 1/4]
    (by simp)
    (by intro τ hτ; rcases List.mem_cons.mp hτ with h | h
        · subst h; norm_num
        · simp at h; subst h; norm_num)
    (by norm_num) (by norm_num) (by norm_num)
    (by intro row hrow; simp at hrow; simp [hrow]),
   C3_process_aggregate_amended.2 [1] [[1]] constModel [] [3/4, 1/4]
    (by simp)
    (by intro τ hτ; rcases List.mem_cons.mp hτ with h | h
        · subst h; norm_num
        · simp at h; subst h; norm_num)
    (by norm_num) (by norm_num) (by norm_num)
    (by intro beta xi; simp [constModel])⟩

/-! ### C8: the barrier state of the non-linear solver is inert -/

theorem ipLoop_eq_noBarrier (tau mu : ℚ) (y : List ℚ) (x : List (List ℚ))
    (model : NonLinearModel) (p : ℕ) :
    ∀ (fuel : ℕ) (beta : List ℚ) (t : ℚ),
    ipLoop tau mu y x model p fuel beta t = ipLoopNoBarrier tau y x model p fuel beta
  | 0, _, _ => rfl
  | fuel + 1, beta, t => by
      simp only [ipLoop, ipLoopNoBarrier, Option.pure_def, Option.bind_eq_bind]
      cases hrg : List.mapM (fun i =>
          (x.get? i).bind fun xi =>
            (y.get? i).bind fun yi => some (yi - model.F beta xi, model.Gradient beta xi))
          (List.range y.length) with
      | none => rfl
      | some rg =>
          simp only [Option.some_bind]
          cases hobj : List.mapM (fun j =>
              ipGradAt (rg.map Prod.snd) (rg.map Prod.fst) tau y.length j)
              (List.range p) with
          | none => rfl
          | some og =>
              simp only [Option.some_bind]
              split
              · rfl
              · exact ipLoop_eq_noBarrier tau mu y x model p fuel _ (t * mu)

/-- C8: the barrier coefficient (`t = 1`) and growth factor (`mu = 10`) of the
non-linear solver are updated once per iteration but never influence the
parameter update: for every input, `solveInteriorPoint` returns exactly the
result of the same iteration with the two barrier variables removed
(`solveInteriorPointNoBarrier`). -/
theorem C8_barrier_state_inert (tau : ℚ) (y : List ℚ) (x : List (List ℚ))
    (model : NonLinearModel) (beta0 : List ℚ) :
    solveInteriorPoint tau y x model beta0 =
      solveInteriorPointNoBarrier tau y x model beta0 :=
  ipLoop_eq_noBarrier tau 10 y x model beta0.length maxIter beta0 1

/-- C8 witness: the equality evaluated at a concrete input. -/
theorem C8_barrier_state_inert_witness :
    solveInteriorPoint (1/2) [1] [[1]] constModel [] =
      solveInteriorPointNoBarrier (1/2) [1] [[1]] constModel [] :=
  C8_barrier_state_inert (1/2) [1] [[1]] constModel []

/-! ### C9: the error behaviour of the two Predict operations -/

/-- C9 counterexample: the non-linear Predict performs no width validation.
`nlrqWitFit` has P = 0, yet predicting from a single row of width 3 succeeds
instead of failing with DimensionMismatch. -/
theorem C9_counterexample_nlrq_predict_no_width_check :
    ([(1 : ℚ), 2, 3] : List ℚ).length ≠ nlrqWitFit.P ∧
    nlrqWitFit.Predict [[1, 2, 3]] = some (Except.ok [0]) := by
  constructor
  · norm_num [nlrqWitFit]
  · rw [NLRQFit.Predict]
    norm_num [nlrqWitFit, constModel, List.range_succ, List.mapM.loop]

theorem range_map_getD {α β : Type} (d : α) (f : α → β) :
    ∀ l : List α, (List.range l.length).map (fun i => f (l.getD i d)) = l.map f
  | [] => rfl
  | a :: l => by
      rw [List.length_cons, List.range_succ_eq_map, List.map_cons, List.map_map,
        List.map_cons]
      refine congrArg₂ _ (by simp) ?_
      have : ((fun i => f ((a :: l).getD i d)) ∘ Nat.succ) =
          (fun i => f (l.getD i d)) := by
        funext i
        simp [Function.comp, List.getD_cons_succ]
      rw [this, range_map_getD d f l]

/-- C9 (amended): the linear fit's Predict fails with EmptyInput on zero rows
and with DimensionMismatch when the FIRST row's width differs from P; the
non-linear fit's Predict fails with EmptyInput on zero rows but performs no
width validation at all — on any non-empty input it succeeds, returning the
model evaluated on every row as given. -/
theorem C9_predict_errors_amended :
    (∀ fit : RQFit, fit.Predict [] = some (Except.error QRError.EmptyInput)) ∧
    (∀ (fit : RQFit) (newX : List (List ℚ)), newX ≠ [] →
      (newX.headD []).length ≠ fit.P →
      fit.Predict newX = some (Except.error QRError.DimensionMismatch)) ∧
    (∀ fit : NLRQFit, fit.Predict [] = some (Except.error QRError.EmptyInput)) ∧
    (∀ (fit : NLRQFit) (newX : List (List ℚ)), newX ≠ [] →
      fit.Predict newX =
        some (Except.ok (newX.map (fit.Model.F fit.Coefficients)))) := by
  refine ⟨fun fit => rfl, ?_, fun fit => rfl, ?_⟩
  · intro fit newX hne hw
    rw [RQFit.Predict, if_neg (fun h => hne (List.length_eq_zero.mp h)), if_pos hw]
  · intro fit newX hne
    rw [NLRQFit.Predict, if_neg (fun h => hne (List.length_eq_zero.mp h))]
    have hbody : (List.range newX.length).mapM (fun i => do
        let xi ← newX.get? i
        pure (fit.Model.F fit.Coefficients xi)) =
        some ((List.range newX.length).map
          (fun i => fit.Model.F fit.Coefficients (newX.getD i []))) := by
      refine mapM_pure_eq (List.range newX.length) ?_
      intro i hi
      have hin : i < newX.length := List.mem_range.mp hi
      simp only [Option.pure_def, Option.bind_eq_bind]
      rw [get?_eq_getD_of_lt hin []]
      rfl
    simp only [Option.pure_def, Option.bind_eq_bind] at hbody ⊢
    rw [hbody]
    simp only [Option.some_bind, range_map_getD]

/-- C9 witness: the amended behaviour instantiated at concrete fits and rows. -/
theorem C9_predict_errors_amended_witness :
    rqWitFit.Predict [] = some (Except.error QRError.EmptyInput) ∧
    rqWitFit.Predict [[1, 2]] = some (Except.error QRError.DimensionMismatch) ∧
    nlrqWitFit.Predict [] = some (Except.error QRError.EmptyInput) ∧
    nlrqWitFit.Predict [[5]] =
      some (Except.ok ([[5]].map (nlrqWitFit.Model.F nlrqWitFit.Coefficients))) :=
  ⟨C9_predict_errors_amended.1 rqWitFit,
   C9_predict_errors_amended.2.1 rqWitFit [[1, 2]] (by simp) (by norm_num [rqWitFit]),
   C9_predict_errors_amended.2.2.1 nlrqWitFit,
   C9_predict_errors_amended.2.2.2 nlrqWitFit [[5]] (by simp)⟩

/-! ### C10: index accesses are bounded only by the first row's width -/

/-- A malformed-width prediction target: P = 2 with two coefficients but a
ragged second input row, for the concrete panic. -/
def rqPredFit : RQFit :=
  { Coefficients := [1, 1], Residuals := [], Fitted := [], Tau := 1/2,
    N := 0, P := 2, Method := "br", Formula := "" }

/-- C10: RQ reads `x[i][j]` for all `j` up to the first row's width without
validating the remaining rows. Under the precondition that every row is at
least as wide as the first (respectively at least P wide for Predict, which
checks only the first new row), every index access is in bounds and the
operation never panics; and on a concrete input whose second row is shorter,
both RQ and Predict perform an out-of-range access (modelled by `none`)
instead of returning a DimensionMismatch error. -/
theorem C10_ragged_rows_panic :
    (∀ (y : List ℚ) (x : List (List ℚ)) (tau : ℚ),
      (∀ row ∈ x, (x.headD []).length ≤ row.length) →
      (RQ y x tau).isSome) ∧
    (∀ (fit : RQFit) (newX : List (List ℚ)),
      fit.P ≤ fit.Coefficients.length →
      (∀ row ∈ newX, fit.P ≤ row.length) →
      (fit.Predict newX).isSome) ∧
    RQ [1, 2] [[1, 1], [5]] (1/2) = none ∧
    rqPredFit.Predict [[1, 1], [5]] = none := by
  refine ⟨?_, ?_, ?_, ?_⟩
  · intro y x tau hrows
    by_cases h1 : y.length = 0 ∨ x.length = 0
    · simp only [RQ]
      rw [if_pos h1]
      rfl
    · by_cases h2 : y.length = x.length
      · by_cases h3 : tau ≤ 0 ∨ 1 ≤ tau
        · rw [RQ_invalidTau (fun h => h1 (Or.inl h)) (fun h => h1 (Or.inr h)) h2 h3]
          rfl
        · push_neg at h3
          obtain ⟨fit, coef, _, hok, _⟩ :=
            RQ_ok_total (fun h => h1 (Or.inl h)) (fun h => h1 (Or.inr h)) h2
              h3.1 h3.2 hrows
          rw [hok]
          rfl
      · simp only [RQ]
        rw [if_neg h1, if_pos (by simpa using h2)]
        rfl
  · intro fit newX hcoef hrows
    by_cases h1 : newX.length = 0
    · simp [RQFit.Predict, h1]
    · by_cases h2 : (newX.headD []).length = fit.P
      · rw [RQFit.Predict, if_neg h1, if_neg (not_not_intro h2)]
        have hbody : ∀ i ∈ List.range newX.length,
            ((newX.get? i).bind fun row =>
              dotPrefix row fit.Coefficients fit.P).isSome := by
          intro i hi
          have hin : i < newX.length := List.mem_range.mp hi
          have hri := get?_eq_getD_of_lt hin ([] : List ℚ)
          rw [hri]
          simp only [Option.some_bind]
          obtain ⟨v, hv⟩ := dotPrefix_some (hrows _ (List.get?_mem hri)) hcoef
          rw [hv]
          rfl
        obtain ⟨preds, hpreds, _⟩ := mapM_isSome (List.range newX.length) hbody
        simp only [Option.pure_def, Option.bind_eq_bind]
        rw [hpreds]
        rfl
      · rw [RQFit.Predict, if_neg h1, if_pos h2]
        rfl
  · rw [RQ]
    norm_num [solveBarrodaleRoberts, NewCSRMatrix, CSRMatrix.ToDense, maxIter]
    rw [(by norm_num : (1000 : ℕ) = 999 + 1), brLoop]
    norm_num [brResiduals, brGradAt, dotPrefix, tolerance, List.range_succ,
      List.mapM.loop]
    exact fun a h => Option.noConfusion h
  · rw [RQFit.Predict]
    norm_num [rqPredFit, dotPrefix, List.range_succ, List.mapM.loop]

/-- C10 witness: the in-bounds halves instantiated at concrete well-shaped
inputs. -/
theorem C10_ragged_rows_panic_witness :
    (RQ [1] [[0]] (1/2)).isSome ∧ (rqPredFit.Predict [[1, 1], [2, 3, 4]]).isSome :=
  ⟨C10_ragged_rows_panic.1 [1] [[0]] (1/2)
    (by intro row hrow; simp at hrow; simp [hrow]),
   C10_ragged_rows_panic.2.1 rqPredFit [[1, 1], [2, 3, 4]]
    (by norm_num [rqPredFit])
    (by intro row hrow
        rcases List.mem_cons.mp hrow with h | h
        · subst h; norm_num [rqPredFit]
        · simp at h; subst h; norm_num [rqPredFit])⟩

/-! ### C6: characterization of the crossing matrix -/

/-- The crossing count between `fit1` and the fit stored for `τ`, or 0 when no
fit is stored (used only to state loop characterizations). -/
def ccVal (m : MultiRQFit) (fit1 : RQFit) (τ : ℚ) : ℤ :=
  match m.Fits τ with
  | some f2 => countCrossings fit1.Fitted f2.Fitted
  | none => 0

/-- The crossing count between the fits stored for the `a`-th and `b`-th tau
(0 when either is missing). -/
def ccAt (m : MultiRQFit) (a b : ℕ) : ℤ :=
  match m.Fits (m.Taus.getD a 0), m.Fits (m.Taus.getD b 0) with
  | some fa, some fb => countCrossings fa.Fitted fb.Fitted
  | _, _ => 0

/-- The value of cell `(a, b)` after the inner crossing loop for row `i` has
processed the enumerated taus `ts` starting at position `s`, over base
matrix `M`. -/
def cellFormula (m : MultiRQFit) (fit1 : RQFit) (i : ℕ) (ts : List ℚ) (s : ℕ)
    (M : ℕ → ℕ → ℤ) (a b : ℕ) : ℤ :=
  if a = i ∧ i < b ∧ s ≤ b ∧ b - s < ts.length then ccVal m fit1 (ts.getD (b - s) 0)
  else if b = i ∧ i < a ∧ s ≤ a ∧ a - s < ts.length then ccVal m fit1 (ts.getD (a - s) 0)
  else M a b

theorem cellFormula_shift {m : MultiRQFit} {fit1 : RQFit} {i : ℕ} (τ : ℚ)
    (ts' : List ℚ) (s : ℕ) (M : ℕ → ℕ → ℤ) (a b : ℕ) (hsi : s ≤ i) :
    cellFormula m fit1 i ts' (s + 1) M a b = cellFormula m fit1 i (τ :: ts') s M a b := by
  unfold cellFormula
  by_cases h1 : a = i ∧ i < b ∧ s + 1 ≤ b ∧ b - (s + 1) < ts'.length
  · have h1' : a = i ∧ i < b ∧ s ≤ b ∧ b - s < (τ :: ts').length := by
      simp only [List.length_cons]
      omega
    rw [if_pos h1, if_pos h1']
    have hbs : b - s = (b - s - 1) + 1 := by omega
    rw [hbs, List.getD_cons_succ]
    have hbs2 : b - s - 1 = b - (s + 1) := by omega
    rw [hbs2]
  · by_cases h2 : b = i ∧ i < a ∧ s + 1 ≤ a ∧ a - (s + 1) < ts'.length
    · have h2' : b = i ∧ i < a ∧ s ≤ a ∧ a - s < (τ :: ts').length := by
        simp only [List.length_cons]
        omega
      rw [if_neg h1, if_pos h2, if_neg ?_, if_pos h2']
      · have has : a - s = (a - s - 1) + 1 := by omega
        rw [has, List.getD_cons_succ]
        have has2 : a - s - 1 = a - (s + 1) := by omega
        rw [has2]
      · simp only [List.length_cons]
        omega
    · have h3 : ¬(a = i ∧ i < b ∧ s ≤ b ∧ b - s < (τ :: ts').length) := by
        simp only [List.length_cons]
        omega
      have h4 : ¬(b = i ∧ i < a ∧ s ≤ a ∧ a - s < (τ :: ts').length) := by
        simp only [List.length_cons]
        omega
      rw [if_neg h1, if_neg h2, if_neg h3, if_neg h4]

theorem cellFormula_write {m : MultiRQFit} {fit1 : RQFit} {i : ℕ} {τ : ℚ} {f2 : RQFit}
    (ts' : List ℚ) (s : ℕ) (M : ℕ → ℕ → ℤ) (a b : ℕ) (his : i < s)
    (hf2 : m.Fits τ = some f2) :
    cellFormula m fit1 i ts' (s + 1)
      (matUpd (matUpd M i s (countCrossings fit1.Fitted f2.Fitted)) s i
        (countCrossings fit1.Fitted f2.Fitted)) a b
      = cellFormula m fit1 i (τ :: ts') s M a b := by
  have hcc : ccVal m fit1 τ = countCrossings fit1.Fitted f2.Fitted := by
    unfold ccVal
    rw [hf2]
  unfold cellFormula
  by_cases h1 : a = i ∧ i < b ∧ s + 1 ≤ b ∧ b - (s + 1) < ts'.length
  · have h1' : a = i ∧ i < b ∧ s ≤ b ∧ b - s < (τ :: ts').length := by
      simp only [List.length_cons]
      omega
    rw [if_pos h1, if_pos h1']
    have hbs : b - s = (b - s - 1) + 1 := by omega
    rw [hbs, List.getD_cons_succ]
    have hbs2 : b - s - 1 = b - (s + 1) := by omega
    rw [hbs2]
  · by_cases h2 : b = i ∧ i < a ∧ s + 1 ≤ a ∧ a - (s + 1) < ts'.length
    · have h2' : b = i ∧ i < a ∧ s ≤ a ∧ a - s < (τ :: ts').length := by
        simp only [List.length_cons]
        omega
      rw [if_neg h1, if_pos h2, if_neg ?_, if_pos h2']
      · have has : a - s = (a - s - 1) + 1 := by omega
        rw [has, List.getD_cons_succ]
        have has2 : a - s - 1 = a - (s + 1) := by omega
        rw [has2]
      · simp only [List.length_cons]
        omega
    · rw [if_neg h1, if_neg h2]
      by_cases hb : a = i ∧ b = s
      · have hRHS : a = i ∧ i < b ∧ s ≤ b ∧ b - s < (τ :: ts').length := by
          simp only [List.length_cons]
          omega
        rw [if_pos hRHS]
        unfold matUpd
        rw [if_neg (by omega), if_pos ⟨hb.1, hb.2⟩]
        have : b - s = 0 := by omega
        rw [this, List.getD_cons_zero, hcc]
      · by_cases hb2 : a = s ∧ b = i
        · have hRHS1 : ¬(a = i ∧ i < b ∧ s ≤ b ∧ b - s < (τ :: ts').length) := by
            omega
          have hRHS2 : b = i ∧ i < a ∧ s ≤ a ∧ a - s < (τ :: ts').length := by
            simp only [List.length_cons]
            omega
          rw [if_neg hRHS1, if_pos hRHS2]
          unfold matUpd
          rw [if_pos ⟨hb2.1, hb2.2⟩]
          have : a - s = 0 := by omega
          rw [this, List.getD_cons_zero, hcc]
        · have hRHS1 : ¬(a = i ∧ i < b ∧ s ≤ b ∧ b - s < (τ :: ts').length) := by
            simp only [List.length_cons]
            omega
          have hRHS2 : ¬(b = i ∧ i < a ∧ s ≤ a ∧ a - s < (τ :: ts').length) := by
            simp only [List.length_cons]
            omega
          rw [if_neg hRHS1, if_neg hRHS2]
          unfold matUpd
          rw [if_neg (by omega), if_neg (by omega)]

theorem crossLoop_charac (m : MultiRQFit) (fit1 : RQFit) (i : ℕ) :
    ∀ (ts : List ℚ) (s : ℕ) (M M' : ℕ → ℕ → ℤ),
      crossLoop m fit1 i (List.enumFrom s ts) M = some M' →
      ∀ a b, M' a b = cellFormula m fit1 i ts s M a b
  | [], s, M, M', h => by
      have hM : M = M' := by
        simpa [List.enumFrom, crossLoop] using h
      subst hM
      intro a b
      unfold cellFormula
      rw [if_neg (by simp only [List.length_nil]; omega),
        if_neg (by simp only [List.length_nil]; omega)]
  | τ :: ts', s, M, M', h => by
      rw [show List.enumFrom s (τ :: ts') = (s, τ) :: List.enumFrom (s + 1) ts' from rfl] at h
      by_cases hsi : s ≤ i
      · rw [show crossLoop m fit1 i ((s, τ) :: List.enumFrom (s + 1) ts') M
            = crossLoop m fit1 i (List.enumFrom (s + 1) ts') M from by
          simp only [crossLoop, if_pos hsi]] at h
        intro a b
        rw [crossLoop_charac m fit1 i ts' (s + 1) M M' h a b]
        exact cellFormula_shift τ ts' s M a b hsi
      · push_neg at hsi
        simp only [crossLoop, if_neg (by omega : ¬ s ≤ i), Option.pure_def,
          Option.bind_eq_bind] at h
        cases hf2 : m.Fits τ with
        | none =>
            rw [hf2] at h
            exact absurd h (by simp)
        | some f2 =>
            rw [hf2] at h
            simp only [Option.some_bind] at h
            intro a b
            rw [crossLoop_charac m fit1 i ts' (s + 1) _ M' h a b]
            exact cellFormula_write ts' s M a b hsi hf2

/-- The value of cell `(a, b)` after the outer diagnostics loop has processed
the enumerated taus `ts` starting at position `s`, over base matrix `M`. -/
def outCellFormula (m : MultiRQFit) (ts : List ℚ) (s : ℕ) (M : ℕ → ℕ → ℤ)
    (a b : ℕ) : ℤ :=
  if s ≤ min a b ∧ min a b - s < ts.length ∧ max a b < m.Taus.length ∧ a ≠ b then
    ccAt m (min a b) (max a b)
  else M a b

theorem ccVal_eq_ccAt {m : MultiRQFit} {fit1 : RQFit} {i0 : ℕ} (jm : ℕ)
    (h1 : m.Fits (m.Taus.getD i0 0) = some fit1) :
    ccVal m fit1 (m.Taus.getD jm 0) = ccAt m i0 jm := by
  unfold ccVal ccAt
  rw [h1]
  cases m.Fits (m.Taus.getD jm 0) <;> rfl

theorem diagLoop_charac (m : MultiRQFit) :
    ∀ (ts : List ℚ) (s : ℕ) (rs : ℚ → Option Stats) (M : ℕ → ℕ → ℤ)
      (rs' : ℚ → Option Stats) (M' : ℕ → ℕ → ℤ),
      (∀ k, k < ts.length → ts.getD k 0 = m.Taus.getD (s + k) 0) →
      diagLoop m (List.enumFrom s ts) rs M = some (rs', M') →
      ∀ a b, M' a b = outCellFormula m ts s M a b
  | [], s, rs, M, rs', M', _, h => by
      have hM : M = M' := by
        have := h
        simp only [List.enumFrom, diagLoop, Option.some_inj, Prod.mk.injEq] at this
        exact this.2
      subst hM
      intro a b
      unfold outCellFormula
      rw [if_neg (by simp only [List.length_nil]; omega)]
  | τ :: ts', s, rs, M, rs', M', hsfx, h => by
      rw [show List.enumFrom s (τ :: ts') = (s, τ) :: List.enumFrom (s + 1) ts' from rfl] at h
      simp only [diagLoop, Option.pure_def, Option.bind_eq_bind] at h
      cases hf1 : m.Fits τ with
      | none =>
          rw [hf1] at h
          exact absurd h (by simp)
      | some fit1 =>
          rw [hf1] at h
          simp only [Option.some_bind] at h
          cases hM1 : crossLoop m fit1 s m.Taus.enum M with
          | none =>
              rw [hM1] at h
              exact absurd h (by simp)
          | some M1 =>
              rw [hM1] at h
              simp only [Option.some_bind] at h
              have hsfx' : ∀ k, k < ts'.length → ts'.getD k 0 = m.Taus.getD (s + 1 + k) 0 := by
                intro k hk
                have := hsfx (k + 1) (by simp only [List.length_cons]; omega)
                rw [List.getD_cons_succ] at this
                rw [this]
                congr 1
                omega
              have IH := diagLoop_charac m ts' (s + 1) _ M1 rs' M' hsfx' h
              have hcell : ∀ a b, M1 a b = cellFormula m fit1 s m.Taus 0 M a b :=
                crossLoop_charac m fit1 s m.Taus 0 M M1 hM1
              have hτ : τ = m.Taus.getD s 0 := by
                have := hsfx 0 (by simp only [List.length_cons]; omega)
                simpa using this
              have hlook : m.Fits (m.Taus.getD s 0) = some fit1 := by
                rw [← hτ]
                exact hf1
              intro a b
              rw [IH a b]
              unfold outCellFormula
              by_cases hab : a = b
              · rw [if_neg (by omega), if_neg (by omega)]
                rw [hcell a b]
                unfold cellFormula
                rw [if_neg (by omega), if_neg (by omega)]
              · by_cases hreg : s ≤ min a b ∧ min a b - s < (τ :: ts').length ∧
                    max a b < m.Taus.length ∧ a ≠ b
                · rw [if_pos hreg]
                  by_cases hi0 : min a b = s
                  · rw [if_neg (by omega)]
                    rw [hcell a b]
                    unfold cellFormula
                    by_cases hamin : a < b
                    · have ha : a = s := by omega
                      have hcond : a = s ∧ s < b ∧ 0 ≤ b ∧ b - 0 < m.Taus.length := by
                        constructor
                        · exact ha
                        · refine ⟨by omega, by omega, ?_⟩
                          have : max a b = b := by omega
                          omega
                      rw [if_pos hcond]
                      have hb0 : b - 0 = b := by omega
                      rw [hb0]
                      have hminmax : min a b = a ∧ max a b = b := by omega
                      rw [hminmax.1, hminmax.2, ha]
                      exact ccVal_eq_ccAt b hlook
                    · have hb : b = s := by omega
                      have hcond1 : ¬(a = s ∧ s < b ∧ 0 ≤ b ∧ b - 0 < m.Taus.length) := by
                        omega
                      have hcond2 : b = s ∧ s < a ∧ 0 ≤ a ∧ a - 0 < m.Taus.length := by
                        refine ⟨hb, by omega, by omega, ?_⟩
                        have : max a b = a := by omega
                        omega
                      rw [if_neg hcond1, if_pos hcond2]
                      have ha0 : a - 0 = a := by omega
                      rw [ha0]
                      have hminmax : min a b = b ∧ max a b = a := by omega
                      rw [hminmax.1, hminmax.2, hb]
                      exact ccVal_eq_ccAt a hlook
                  · have hreg' : s + 1 ≤ min a b ∧ min a b - (s + 1) < ts'.length ∧
                        max a b < m.Taus.length ∧ a ≠ b := by
                      have := hreg.2.1
                      simp only [List.length_cons] at this
                      exact ⟨by omega, by omega, hreg.2.2.1, hreg.2.2.2⟩
                    rw [if_pos hreg']
                · rw [if_neg hreg]
                  have hreg'' : ¬(s + 1 ≤ min a b ∧ min a b - (s + 1) < ts'.length ∧
                      max a b < m.Taus.length ∧ a ≠ b) := by
                    simp only [List.length_cons] at hreg
                    omega
                  rw [if_neg hreg'']
                  rw [hcell a b]
                  unfold cellFormula
                  have hc1 : ¬(a = s ∧ s < b ∧ 0 ≤ b ∧ b - 0 < m.Taus.length) := by
                    simp only [List.length_cons] at hreg
                    omega
                  have hc2 : ¬(b = s ∧ s < a ∧ 0 ≤ a ∧ a - 0 < m.Taus.length) := by
                    simp only [List.length_cons] at hreg
                    omega
                  rw [if_neg hc1, if_neg hc2]

theorem diagLoop_lookups (m : MultiRQFit) :
    ∀ (ts : List ℚ) (s : ℕ) (rs : ℚ → Option Stats) (M : ℕ → ℕ → ℤ)
      (out : (ℚ → Option Stats) × (ℕ → ℕ → ℤ)),
      diagLoop m (List.enumFrom s ts) rs M = some out →
      ∀ k, k < ts.length → (m.Fits (ts.getD k 0)).isSome
  | [], _, _, _, _, _ => by
      intro k hk
      simp only [List.length_nil] at hk
      omega
  | τ :: ts', s, rs, M, out, h => by
      rw [show List.enumFrom s (τ :: ts') = (s, τ) :: List.enumFrom (s + 1) ts' from rfl] at h
      simp only [diagLoop, Option.pure_def, Option.bind_eq_bind] at h
      cases hf1 : m.Fits τ with
      | none =>
          rw [hf1] at h
          exact absurd h (by simp)
      | some fit1 =>
          rw [hf1] at h
          simp only [Option.some_bind] at h
          cases hM1 : crossLoop m fit1 s m.Taus.enum M with
          | none =>
              rw [hM1] at h
              exact absurd h (by simp)
          | some M1 =>
              rw [hM1] at h
              simp only [Option.some_bind] at h
              intro k hk
              cases k with
              | zero =>
                  rw [List.getD_cons_zero, hf1]
                  rfl
              | succ k =>
                  rw [List.getD_cons_succ]
                  exact diagLoop_lookups m ts' (s + 1) _ M1 out h k
                    (by simp only [List.length_cons] at hk; omega)

/-! ### Inversion of ComputeDiagnostics and the pseudo R-squared -/

theorem ComputeDiagnostics_inv {m : MultiRQFit} {d : Diagnostics}
    (hd : m.ComputeDiagnostics = some d) :
    ∃ rs M, diagLoop m m.Taus.enum (fun _ => none) (fun _ _ => 0) = some (rs, M) ∧
      d.ResidualStats = rs ∧
      d.CrossingMatrix = (List.range m.Taus.length).map
        (fun i => (List.range m.Taus.length).map (fun j => M i j)) ∧
      (m.Fits (1/2) = none → d.PseudoRSquared = 0) ∧
      (∀ fit, m.Fits (1/2) = some fit →
        computePseudoRSquared fit = some d.PseudoRSquared) := by
  simp only [MultiRQFit.ComputeDiagnostics, Option.pure_def, Option.bind_eq_bind] at hd
  cases hdl : diagLoop m m.Taus.enum (fun _ => none) (fun _ _ => 0) with
  | none =>
      rw [hdl] at hd
      exact absurd hd (by simp)
  | some rsM =>
      obtain ⟨rs, M⟩ := rsM
      rw [hdl] at hd
      simp only [Option.some_bind] at hd
      refine ⟨rs, M, rfl, ?_⟩
      cases hfit : m.Fits (1/2) with
      | none =>
          rw [hfit] at hd
          simp only [Option.some_bind, Option.some_inj] at hd
          subst hd
          exact ⟨rfl, rfl, fun _ => rfl, fun fit hf => Option.noConfusion hf⟩
      | some fit =>
          rw [hfit] at hd
          simp only [Option.some_bind] at hd
          cases hps : computePseudoRSquared fit with
          | none =>
              rw [hps] at hd
              exact absurd hd (by simp)
          | some v =>
              rw [hps] at hd
              simp only [Option.some_bind, Option.some_inj] at hd
              subst hd
              refine ⟨rfl, rfl, fun hf => Option.noConfusion hf, ?_⟩
              intro fit' hf'
              have hee : fit' = fit := (Option.some_inj.mp hf').symm
              subst hee
              exact hps

theorem foldl_pair_add {α : Type} (f g : α → ℚ) :
    ∀ (l : List α) (c : ℚ × ℚ),
      l.foldl (fun acc a => (acc.1 + f a, acc.2 + g a)) c =
        (c.1 + (l.map f).sum, c.2 + (l.map g).sum)
  | [], c => by simp
  | a :: l, c => by
      simp only [List.foldl_cons, List.map_cons, List.sum_cons]
      rw [foldl_pair_add f g l (c.1 + f a, c.2 + g a)]
      simp only [Prod.mk.injEq]
      constructor <;> ring

theorem computePseudoRSquared_eq (fit : RQFit)
    (hlen : fit.Fitted.length = fit.Residuals.length) :
    computePseudoRSquared fit =
      some (if (fit.Fitted.map (fun f => |f - median fit.Residuals|)).sum = 0 then 0
        else 1 - (fit.Residuals.map (fun r => |r|)).sum /
          (fit.Fitted.map (fun f => |f - median fit.Residuals|)).sum) := by
  rw [computePseudoRSquared]
  rw [foldlM_pure_eq fit.Residuals.enum
    (h := fun acc p => (acc.1 + |p.2|, acc.2 + |fit.Fitted.getD p.1 0 - median fit.Residuals|))]
  · rw [foldl_pair_add]
    have hsnd : (fit.Residuals.enum.map (fun p => |p.2|)).sum =
        (fit.Residuals.map (fun r => |r|)).sum := by
      have : fit.Residuals.enum.map (fun p : ℕ × ℚ => |p.2|) =
          (fit.Residuals.enum.map Prod.snd).map (fun r => |r|) := by
        rw [List.map_map]
        rfl
      rw [this, List.enum_map_snd]
    have hfst : (fit.Residuals.enum.map
          (fun p => |fit.Fitted.getD p.1 0 - median fit.Residuals|)).sum =
        (fit.Fitted.map (fun f => |f - median fit.Residuals|)).sum := by
      have h1 : fit.Residuals.enum.map
            (fun p : ℕ × ℚ => |fit.Fitted.getD p.1 0 - median fit.Residuals|) =
          (fit.Residuals.enum.map Prod.fst).map
            (fun i => |fit.Fitted.getD i 0 - median fit.Residuals|) := by
        rw [List.map_map]
        rfl
      rw [h1, List.enum_map_fst, ← hlen,
        range_map_getD (0 : ℚ) (fun v => |v - median fit.Residuals|) fit.Fitted]
    simp only [Option.pure_def, Option.bind_eq_bind, Option.some_bind, zero_add,
      hsnd, hfst, apply_ite some]
  · intro b p hp
    obtain ⟨i, r⟩ := p
    have hi : i < fit.Residuals.length := by
      have := List.enum_map_fst fit.Residuals ▸ List.mem_map_of_mem Prod.fst hp
      exact List.mem_range.mp this
    have hif : i < fit.Fitted.length := by omega
    simp only [Option.pure_def, Option.bind_eq_bind]
    rw [get?_eq_getD_of_lt hif 0]
    rfl

/-- C5: the pseudo R-squared of ComputeDiagnostics is computed only from the
tau = 0.5 fit. When the aggregate's map holds a fit for 0.5 (whose fitted and
residual vectors have equal length, as every real fit does), the value is
`1 - Σ|residual| / Σ|fitted - med|` with `med` the median of that fit's own
residuals, except that it is 0 when the denominator is exactly zero; when 0.5
is absent the value is the scalar 0. -/
theorem C5_pseudo_r_squared_median_only (m : MultiRQFit) (d : Diagnostics)
    (hd : m.ComputeDiagnostics = some d) :
    (m.Fits (1/2) = none → d.PseudoRSquared = 0) ∧
    (∀ fit, m.Fits (1/2) = some fit → fit.Fitted.length = fit.Residuals.length →
      d.PseudoRSquared =
        if (fit.Fitted.map (fun f => |f - median fit.Residuals|)).sum = 0 then 0
        else 1 - (fit.Residuals.map (fun r => |r|)).sum /
          (fit.Fitted.map (fun f => |f - median fit.Residuals|)).sum) := by
  obtain ⟨rs, M, _, _, _, hnone, hsome⟩ := ComputeDiagnostics_inv hd
  refine ⟨hnone, ?_⟩
  intro fit hfit hlen
  have h1 := hsome fit hfit
  rw [computePseudoRSquared_eq fit hlen] at h1
  exact (Option.some_inj.mp h1).symm

/-- A concrete single-tau aggregate for the diagnostics witnesses: the 0.5 fit
has residuals [1, 2] and fitted values [0, 0]. -/
def diagWitFit : RQFit :=
  { Coefficients := [0], Residuals := [1, 2], Fitted := [0, 0], Tau := 1/2,
    N := 2, P := 1, Method := "br", Formula := "" }

/-- The aggregate holding `diagWitFit` at tau = 0.5. -/
def diagWitAgg : MultiRQFit :=
  { Fits := fun t => if t = 1/2 then some diagWitFit else none, Taus := [1/2],
    N := 2, P := 1, Method := "br", Formula := "" }

/-- The diagnostics of `diagWitAgg`: median of [1, 2] is 2, so the pseudo
R-squared is 1 - 3/4 = 1/4. -/
def diagWitResult : Diagnostics :=
  { PseudoRSquared := 1/4,
    ResidualStats := fun t =>
      if t = 1/2 then some (computeStats diagWitFit.Residuals) else none,
    CrossingMatrix := [[0]] }

theorem diagWit_eval : diagWitAgg.ComputeDiagnostics = some diagWitResult := by
  with_unfolding_all rfl

/-- C5 witness: the pseudo R-squared cases at the concrete aggregate. -/
theorem C5_pseudo_r_squared_median_only_witness :
    (diagWitAgg.Fits (1/2) = none → diagWitResult.PseudoRSquared = 0) ∧
    (∀ fit, diagWitAgg.Fits (1/2) = some fit →
      fit.Fitted.length = fit.Residuals.length →
      diagWitResult.PseudoRSquared =
        if (fit.Fitted.map (fun f => |f - median fit.Residuals|)).sum = 0 then 0
        else 1 - (fit.Residuals.map (fun r => |r|)).sum /
          (fit.Fitted.map (fun f => |f - median fit.Residuals|)).sum) :=
  C5_pseudo_r_squared_median_only diagWitAgg diagWitResult diagWit_eval

/-! ### Remaining pieces for the crossing-matrix claim -/

theorem render_entry {M : ℕ → ℕ → ℤ} {n a b : ℕ} (ha : a < n) (hb : b < n) :
    (((List.range n).map (fun i => (List.range n).map (fun j => M i j))).getD a []).getD b 0
      = M a b := by
  have houter : ((List.range n).map (fun i => (List.range n).map (fun j => M i j))).getD a []
      = (List.range n).map (fun j => M a j) := by
    rw [List.getD_eq_get?, List.get?_map, List.get?_range ha]
    rfl
  rw [houter, List.getD_eq_get?, List.get?_map, List.get?_range hb]
  rfl

theorem foldl_congr_fun {α β : Type} {f g : β → α → β} :
    ∀ (l : List α), (∀ b a, a ∈ l → f b a = g b a) → ∀ c, l.foldl f c = l.foldl g c
  | [], _, _ => rfl
  | a :: l, H, c => by
      rw [List.foldl_cons, List.foldl_cons, H c a (List.mem_cons_self a l),
        foldl_congr_fun l (fun b x hx => H b x (List.mem_cons_of_mem _ hx)) (g c a)]

theorem countCrossings_comm (f1 f2 : List ℚ) :
    countCrossings f1 f2 = countCrossings f2 f1 := by
  unfold countCrossings
  by_cases h : f1.length = f2.length
  · rw [if_neg (fun hc => hc h), if_neg (fun hc => hc h.symm), h]
    exact foldl_congr_fun _ (fun c i _ => if_congr Or.comm rfl rfl) 0
  · rw [if_pos h, if_pos (fun he => h he.symm)]

theorem foldl_count_eq {p : ℕ → Prop} [DecidablePred p] :
    ∀ (l : List ℕ) (c : ℤ),
      l.foldl (fun cr i => if p i then cr + 1 else cr) c =
        c + ((l.filter (fun i => decide (p i))).length : ℤ)
  | [], c => by simp
  | a :: l, c => by
      simp only [List.foldl_cons, List.filter_cons]
      by_cases hp : p a
      · rw [if_pos hp, foldl_count_eq l (c + 1), if_pos (decide_eq_true hp)]
        simp only [List.length_cons]
        push_cast
        ring
      · rw [if_neg hp, foldl_count_eq l c,
          if_neg (fun hd => hp (of_decide_eq_true hd))]

theorem range'_one_eq_filter :
    ∀ n : ℕ, List.range' 1 n = (List.range (n + 1)).filter (fun k => decide (0 < k))
  | 0 => rfl
  | n + 1 => by
      rw [List.range_succ, List.filter_append, ← range'_one_eq_filter n,
        List.range'_concat]
      simp [Nat.add_comm]

/-- The spec-side flip count: the number of positions `k ≥ 1` at which the
ordering of the two fitted sequences flips between `k - 1` and `k`. -/
def flipCount (f1 f2 : List ℚ) : ℤ :=
  ((List.range f1.length).filter (fun k => decide (0 < k) &&
    decide ((f1.getD (k - 1) 0 ≤ f2.getD (k - 1) 0 ∧ f2.getD k 0 < f1.getD k 0) ∨
      (f2.getD (k - 1) 0 ≤ f1.getD (k - 1) 0 ∧ f1.getD k 0 < f2.getD k 0)))).length

theorem countCrossings_eq_flipCount (f1 f2 : List ℚ) (hlen : f1.length = f2.length) :
    countCrossings f1 f2 = flipCount f1 f2 := by
  unfold countCrossings flipCount
  rw [if_neg (fun hc => hc hlen)]
  cases hn : f1.length with
  | zero => rfl
  | succ n =>
      rw [show n + 1 - 1 = n from rfl, foldl_count_eq, zero_add,
        range'_one_eq_filter n, List.filter_filter]
      rw [List.filter_congr (fun x _ => Bool.and_comm _ _)]

theorem countCrossings_zero_of_forall_lt (f1 f2 : List ℚ)
    (h : ∀ k, k < f1.length → f1.getD k 0 < f2.getD k 0) :
    countCrossings f1 f2 = 0 := by
  unfold countCrossings
  by_cases hl : f1.length ≠ f2.length
  · rw [if_pos hl]
  · rw [if_neg hl, foldl_count_eq, zero_add]
    have hfil : (List.range' 1 (f1.length - 1)).filter (fun i =>
        decide ((f1.getD (i - 1) 0 ≤ f2.getD (i - 1) 0 ∧ f2.getD i 0 < f1.getD i 0) ∨
          (f2.getD (i - 1) 0 ≤ f1.getD (i - 1) 0 ∧ f1.getD i 0 < f2.getD i 0))) = [] := by
      rw [List.filter_eq_nil]
      intro i hi
      obtain ⟨h1, h2⟩ := List.mem_range'_1.mp hi
      have hilt : i < f1.length := by omega
      have hprev : i - 1 < f1.length := by omega
      have ha := h i hilt
      have hb := h (i - 1) hprev
      simp only [decide_eq_true_eq]
      push_neg
      constructor
      · intro _
        linarith
      · intro hc
        linarith
    rw [hfil]
    rfl

/-- C6: for every aggregate whose diagnostics computation succeeds, the
crossing matrix is square (`len(Taus) × len(Taus)`), symmetric, and has a zero
diagonal; each off-diagonal entry `(a, b)` is the crossing count between the
fits stored for the `a`-th and `b`-th taus, where `countCrossings` counts
exactly the positions `k ≥ 1` at which the ordering of the two fitted
sequences flips (for equal-length sequences); and whenever the fitted
sequences are strictly ordered pointwise in tau, every off-diagonal entry
is 0. -/
theorem C6_crossing_matrix_properties (m : MultiRQFit) (d : Diagnostics)
    (hd : m.ComputeDiagnostics = some d) :
    d.CrossingMatrix.length = m.Taus.length ∧
    (∀ row ∈ d.CrossingMatrix, row.length = m.Taus.length) ∧
    (∀ a b, a < m.Taus.length → b < m.Taus.length →
      (d.CrossingMatrix.getD a []).getD b 0 = (d.CrossingMatrix.getD b []).getD a 0) ∧
    (∀ a, a < m.Taus.length → (d.CrossingMatrix.getD a []).getD a 0 = 0) ∧
    (∀ a b, a < m.Taus.length → b < m.Taus.length → a ≠ b →
      ∃ fa fb, m.Fits (m.Taus.getD a 0) = some fa ∧
        m.Fits (m.Taus.getD b 0) = some fb ∧
        (d.CrossingMatrix.getD a []).getD b 0 = countCrossings fa.Fitted fb.Fitted) ∧
    (∀ f1 f2 : List ℚ, f1.length = f2.length →
      countCrossings f1 f2 = flipCount f1 f2) ∧
    ((∀ a b fa fb, a < b → b < m.Taus.length →
        m.Fits (m.Taus.getD a 0) = some fa → m.Fits (m.Taus.getD b 0) = some fb →
        ∀ k, k < fa.Fitted.length → fa.Fitted.getD k 0 < fb.Fitted.getD k 0) →
      ∀ a b, a < m.Taus.length → b < m.Taus.length → a ≠ b →
        (d.CrossingMatrix.getD a []).getD b 0 = 0) := by
  obtain ⟨rs, M, hdl, _, hmat, _, _⟩ := ComputeDiagnostics_inv hd
  have hchar : ∀ a b, M a b = outCellFormula m m.Taus 0 (fun _ _ => 0) a b :=
    diagLoop_charac m m.Taus 0 (fun _ => none) (fun _ _ => 0) rs M
      (fun k _ => by rw [Nat.zero_add]) hdl
  have hlook : ∀ k, k < m.Taus.length → (m.Fits (m.Taus.getD k 0)).isSome :=
    diagLoop_lookups m m.Taus 0 (fun _ => none) (fun _ _ => 0) (rs, M) hdl
  have hentry : ∀ a b, a < m.Taus.length → b < m.Taus.length →
      (d.CrossingMatrix.getD a []).getD b 0 = M a b := by
    intro a b ha hb
    rw [hmat]
    exact render_entry ha hb
  have hval : ∀ a b, a < m.Taus.length → b < m.Taus.length → a ≠ b →
      M a b = ccAt m (min a b) (max a b) := by
    intro a b ha hb hab
    rw [hchar a b]
    unfold outCellFormula
    rw [if_pos ⟨by omega, by omega, by omega, hab⟩]
  refine ⟨?_, ?_, ?_, ?_, ?_, fun f1 f2 h => countCrossings_eq_flipCount f1 f2 h, ?_⟩
  · rw [hmat]
    simp
  · intro row hrow
    rw [hmat] at hrow
    obtain ⟨i, _, hi⟩ := List.mem_map.mp hrow
    rw [← hi]
    simp
  · intro a b ha hb
    by_cases hab : a = b
    · subst hab
      rfl
    · rw [hentry a b ha hb, hentry b a hb ha, hval a b ha hb hab,
        hval b a hb ha (fun h => hab h.symm), min_comm, max_comm]
  · intro a ha
    rw [hentry a a ha ha, hchar a a]
    unfold outCellFormula
    rw [if_neg (by omega)]
  · intro a b ha hb hab
    obtain ⟨fa, hfa⟩ := Option.isSome_iff_exists.mp (hlook a ha)
    obtain ⟨fb, hfb⟩ := Option.isSome_iff_exists.mp (hlook b hb)
    refine ⟨fa, fb, hfa, hfb, ?_⟩
    rw [hentry a b ha hb, hval a b ha hb hab]
    unfold ccAt
    rcases Nat.lt_or_ge a b with h | h
    · rw [min_eq_left (by omega), max_eq_right (by omega), hfa, hfb]
    · rw [min_eq_right (by omega), max_eq_left (by omega), hfb, hfa]
      exact countCrossings_comm fb.Fitted fa.Fitted
  · intro hmono a b ha hb hab
    obtain ⟨fa, hfa⟩ := Option.isSome_iff_exists.mp (hlook a ha)
    obtain ⟨fb, hfb⟩ := Option.isSome_iff_exists.mp (hlook b hb)
    rw [hentry a b ha hb, hval a b ha hb hab]
    unfold ccAt
    rcases Nat.lt_or_ge a b with h | h
    · rw [min_eq_left (by omega), max_eq_right (by omega), hfa, hfb]
      exact countCrossings_zero_of_forall_lt fa.Fitted fb.Fitted
        (hmono a b fa fb h hb hfa hfb)
    · have hba : b < a := by omega
      rw [min_eq_right (by omega), max_eq_left (by omega), hfb, hfa]
      exact countCrossings_zero_of_forall_lt fb.Fitted fa.Fitted
        (hmono b a fb fa hba ha hfb hfa)

/-- C6 witness: the crossing-matrix properties at the concrete single-tau
aggregate. -/
theorem C6_crossing_matrix_properties_witness :
    diagWitResult.CrossingMatrix.length = diagWitAgg.Taus.length ∧
    (∀ row ∈ diagWitResult.CrossingMatrix, row.length = diagWitAgg.Taus.length) ∧
    (∀ a b, a < diagWitAgg.Taus.length → b < diagWitAgg.Taus.length →
      (diagWitResult.CrossingMatrix.getD a []).getD b 0 =
        (diagWitResult.CrossingMatrix.getD b []).getD a 0) ∧
    (∀ a, a < diagWitAgg.Taus.length →
      (diagWitResult.CrossingMatrix.getD a []).getD a 0 = 0) ∧
    (∀ a b, a < diagWitAgg.Taus.length → b < diagWitAgg.Taus.length → a ≠ b →
      ∃ fa fb, diagWitAgg.Fits (diagWitAgg.Taus.getD a 0) = some fa ∧
        diagWitAgg.Fits (diagWitAgg.Taus.getD b 0) = some fb ∧
        (diagWitResult.CrossingMatrix.getD a []).getD b 0 =
          countCrossings fa.Fitted fb.Fitted) ∧
    (∀ f1 f2 : List ℚ, f1.length = f2.length →
      countCrossings f1 f2 = flipCount f1 f2) ∧
    ((∀ a b fa fb, a < b → b < diagWitAgg.Taus.length →
        diagWitAgg.Fits (diagWitAgg.Taus.getD a 0) = some fa →
        diagWitAgg.Fits (diagWitAgg.Taus.getD b 0) = some fb →
        ∀ k, k < fa.Fitted.length → fa.Fitted.getD k 0 < fb.Fitted.getD k 0) →
      ∀ a b, a < diagWitAgg.Taus.length → b < diagWitAgg.Taus.length → a ≠ b →
        (diagWitResult.CrossingMatrix.getD a []).getD b 0 = 0) :=
  C6_crossing_matrix_properties diagWitAgg diagWitResult diagWit_eval

/-! ### C4: the variance under the standard deviation is not clamped -/

/-- C4 evaluation at the failing input: in exact rational arithmetic the
variance expression `sumSq/n - mean*mean` of `computeStats` evaluates to
exactly 0 on the all-equal residual vector [0.1, 0.1, 0.1]. The Go code
computes this same expression in float64 arithmetic, where it rounds to the
negative value -1.734723475976807e-18, and passes it to math.Sqrt with no
clamp, producing a NaN standard deviation; any negative result of the
expression is therefore pure floating-point cancellation, which the clamp
required by the spec would remove. -/
theorem C4_variance_unclamped_eval :
    (computeStats [1/10, 1/10, 1/10]).Variance = 0 := by
  with_unfolding_all rfl

end Quantreg
